import Mathlib

/-!
# Verification of the TimeCamp hierarchical project-sync scripts

Shallow embedding of the reconciliation logic of
`sync_projects_new.py` (hierarchy levels, `(level, id)` sorting, the
create/existing/archive pass), the `__main__` configuration gates of
`sync_projects_new.py` and `sync_projects.py`, and the time-entry export
logic of `export_time_entries_redmine.py`.

Conventions of the embedding:
* Python dicts keyed by strings/ints are association lists with
  insert-or-replace semantics (`dinsert`) and first-match lookup
  (`List.lookup`), which coincides with Python dict behaviour because a
  key occurs at most once in the association list.
* The unbounded recursion of `get_hierarchy_level` is modelled with an
  explicit fuel parameter; `none` means the Python recursion does not
  return for any recursion depth.
* Network effects (`create_timecamp_task`, `archive_timecamp_task`) are
  modelled by recording the issued calls; a create-failure oracle
  `fails` models `create_timecamp_task` raising, caught by the
  `except` block in the main loop.
-/

set_option maxRecDepth 4000

/-- One record of `tasks.json`: `{task_id, name, parent_id}`, with
`parent_id = 0` marking a top-level node. -/
structure SourceTask where
  task_id : Nat
  name : String
  parent_id : Nat
deriving DecidableEq, Repr

/-- One TimeCamp task as returned by `get_timecamp_tasks`; only the
fields the sync pass reads are modelled.  `archived` models the
truthiness test `timecamp_task.get('archived')`. -/
structure TCEntry where
  task_id : Nat
  name : String
  external_task_id : Option String
  archived : Bool
deriving DecidableEq, Repr

/-- Does the first char list begin with the second?  (Structural helper
for `pyStartsWith`.) -/
def charsBeginWith : List Char → List Char → Bool
  | _, [] => true
  | [], _ :: _ => false
  | c :: cs, p :: ps => c == p && charsBeginWith cs ps

/-- Python `s.startswith(pre)`; character-level and structurally
recursive so the kernel can evaluate it (same semantics as
`String.startsWith`). -/
def pyStartsWith (s pre : String) : Bool := charsBeginWith s.toList pre.toList

/-- Model of `next((t for t in all_tasks if t['task_id'] == task['parent_id']), None)`. -/
def findTask (tasks : List SourceTask) (tid : Nat) : Option SourceTask :=
  tasks.find? (fun t => t.task_id == tid)

/-- Model of `get_hierarchy_level` of `sync_projects_new.py` (lines 132-142), with a
fuel parameter standing for the recursion depth: `none` means the Python
function recurses beyond any bound (there is no visited-set guard in the
source). -/
def get_hierarchy_level (fuel : Nat) (task : SourceTask) (all_tasks : List SourceTask) :
    Option Nat :=
  match fuel with
  | 0 => none
  | fuel + 1 =>
    if task.parent_id == 0 then some 0
    else
      match findTask all_tasks task.parent_id with
      | none => some 0
      | some parent => (get_hierarchy_level fuel parent all_tasks).map (· + 1)

/-- Python dict assignment `m[k] = v`: replace in place if the key is
present, else append. -/
def dinsert [BEq α] (k : α) (v : β) : List (α × β) → List (α × β)
  | [] => [(k, v)]
  | (k', v') :: rest =>
    if k' == k then (k, v) :: rest else (k', v') :: dinsert k v rest

/-- The external-id tag of a TimeCamp entry, if it passes
`if external_id and external_id.startswith('sync_')`.  (An absent field
is falsy; the empty string is falsy and does not start with `sync_`
either, so the model folds both into the `startsWith` test.) -/
def extTag (e : TCEntry) : Option String :=
  match e.external_task_id with
  | none => none
  | some s => if pyStartsWith s "sync_" then some s else none

/-- One step of building `timecamp_tasks_map`: skip entries without a
matching tag, insert the rest keyed by tag. -/
def tcInsert (m : List (String × TCEntry)) (e : TCEntry) : List (String × TCEntry) :=
  match extTag e with
  | none => m
  | some k => dinsert k e m

/-- The map `timecamp_tasks_map` built from the fetched entries
(`sync_projects_new.py` lines 110-114). -/
def buildTCMap (entries : List TCEntry) : List (String × TCEntry) :=
  entries.foldl tcInsert []

/-- The tag `f"sync_{task['task_id']}"`. -/
def extIdOf (t : SourceTask) : String := "sync_" ++ toString t.task_id

/-- Parent-id resolution of `sync_projects_new.py` lines 158-168.
`if not parent_timecamp_id` is Python truthiness: a mapped id of `0`
falls back to the configured root task id just like an absent one. -/
def resolveParent (rootId : Nat) (srcMap : List (Nat × Nat)) (parentId : Nat) : Nat :=
  if parentId == 0 then rootId
  else
    match List.lookup parentId srcMap with
    | none => rootId
    | some p => if p == 0 then rootId else p

/-- A `create_timecamp_task` call issued to the API. -/
structure CreateCall where
  name : String
  parent_id : Nat
  external_task_id : String
deriving DecidableEq, Repr

/-- In-flight state of the main loop of
`sync_hierarchical_tasks_to_timecamp`. -/
structure SyncState where
  tcMap : List (String × TCEntry)
  srcMap : List (Nat × Nat)
  active : List String
  creates : List CreateCall
  created : List TCEntry
  nextId : Nat
deriving Repr

/-- Model of `active_external_ids.add(x)` — set semantics, only membership is ever
consumed. -/
def addActive (s : List String) (x : String) : List String :=
  if x ∈ s then s else s ++ [x]

/-- One iteration of the `for task in azure_tasks_sorted` loop
(`sync_projects_new.py` lines 152-190).  `fails ext = true` models
`create_timecamp_task` raising, handled by the `except` that logs and
continues; on success the server hands out the fresh id `st.nextId`. -/
def processTask (rootId : Nat) (fails : String → Bool)
    (st : SyncState) (t : SourceTask) : SyncState :=
  let ext := extIdOf t
  let st1 : SyncState := { st with active := addActive st.active ext }
  let parent := resolveParent rootId st1.srcMap t.parent_id
  match List.lookup ext st1.tcMap with
  | none =>
    if fails ext then
      { st1 with creates := st1.creates ++ [⟨t.name, parent, ext⟩] }
    else
      { st1 with
        creates := st1.creates ++ [⟨t.name, parent, ext⟩],
        srcMap := dinsert t.task_id st1.nextId st1.srcMap,
        tcMap := dinsert ext ⟨st1.nextId, t.name, some ext, false⟩ st1.tcMap,
        created := st1.created ++ [⟨st1.nextId, t.name, some ext, false⟩],
        nextId := st1.nextId + 1 }
  | some existing =>
    { st1 with srcMap := dinsert t.task_id existing.task_id st1.srcMap }

/-- The whole main loop, folded over the sorted task list. -/
def processAll (rootId : Nat) (fails : String → Bool)
    (st : SyncState) (ts : List SourceTask) : SyncState :=
  ts.foldl (processTask rootId fails) st

/-- The archive loop (`sync_projects_new.py` lines 192-200): for every
map entry whose key was not touched and that is not already archived,
issue `archive_timecamp_task(task_id)`. -/
def archivePhase (tcMap : List (String × TCEntry)) (active : List String) : List Nat :=
  (tcMap.filter (fun kv => decide (kv.1 ∉ active) && !kv.2.archived)).map
    (fun kv => kv.2.task_id)

/-- Value of `get_hierarchy_level` with the `.getD 0` only relevant when the
recursion would not return (the claims always assume it does). -/
def levelD (fuel : Nat) (tasks : List SourceTask) (t : SourceTask) : Nat :=
  (get_hierarchy_level fuel t tasks).getD 0

/-- The list with `_hierarchy_level` attached (lines 145-146). -/
def annotate (fuel : Nat) (tasks : List SourceTask) : List (SourceTask × Nat) :=
  tasks.map (fun t => (t, levelD fuel tasks t))

/-- The sort key `(x['_hierarchy_level'], x['task_id'])`, as a boolean
lexicographic comparison. -/
def keyLe (a b : SourceTask × Nat) : Bool :=
  a.2 < b.2 || (a.2 == b.2 && a.1.task_id ≤ b.1.task_id)

/-- The sort key comparison as a relation. -/
def KeyRel (a b : SourceTask × Nat) : Prop := keyLe a b = true

instance : DecidableRel KeyRel := fun a b => decEq (keyLe a b) true

instance : IsTotal (SourceTask × Nat) KeyRel where
  total a b := by
    simp only [KeyRel, keyLe, Bool.or_eq_true, decide_eq_true_eq, Bool.and_eq_true, beq_iff_eq,
      Nat.decLt, Nat.decLe]
    omega

instance : IsTrans (SourceTask × Nat) KeyRel where
  trans a b c := by
    simp only [KeyRel, keyLe, Bool.or_eq_true, decide_eq_true_eq, Bool.and_eq_true, beq_iff_eq,
      Nat.decLt, Nat.decLe]
    omega

/-- Model of `sorted(azure_tasks, key=lambda x: (x['_hierarchy_level'], x['task_id']))`
(line 149); Python's sort is a stable sort by the key, modelled by a
stable insertion sort under the same key comparison. -/
def sortTasks (fuel : Nat) (tasks : List SourceTask) : List (SourceTask × Nat) :=
  List.insertionSort KeyRel (annotate fuel tasks)

/-- Observable outcome of one reconciliation pass. -/
structure PassResult where
  creates : List CreateCall
  archives : List Nat
  created : List TCEntry
  active : List String
  tcMap : List (String × TCEntry)
  srcMap : List (Nat × Nat)
deriving Repr

/-- The no-effect result of the `if not azure_tasks: return` early exit
(line 103): nothing is fetched, created or archived. -/
def emptyResult : PassResult := ⟨[], [], [], [], [], []⟩

/-- Model of `sync_hierarchical_tasks_to_timecamp` as a pure pass: given the
source list (`tasks.json`), the fetched destination entries, the
configured root task id, the next fresh server id and the
create-failure oracle, produce the issued calls and final state. -/
def syncPass (fuel rootId nextId0 : Nat) (fails : String → Bool)
    (tasks : List SourceTask) (entries : List TCEntry) : PassResult :=
  if tasks.isEmpty then emptyResult
  else
    let st0 : SyncState := ⟨buildTCMap entries, [], [], [], [], nextId0⟩
    let st := processAll rootId fails st0 ((sortTasks fuel tasks).map Prod.fst)
    { creates := st.creates
      archives := archivePhase st.tcMap st.active
      created := st.created
      active := st.active
      tcMap := st.tcMap
      srcMap := st.srcMap }

/-- Server-side effect of an archive call on one entry. -/
def markArchived (ids : List Nat) (e : TCEntry) : TCEntry :=
  if e.task_id ∈ ids then { e with archived := true } else e

/-- Destination state after applying one pass's calls: archived flags
set on the archived ids, successfully created tasks appended. -/
def applyPass (entries : List TCEntry) (r : PassResult) : List TCEntry :=
  entries.map (markArchived r.archives) ++ r.created

/-- The all-creates-succeed oracle. -/
def noFail : String → Bool := fun _ => false

/-! ## `__main__` configuration gates (`sync_projects_new.py` 265-277,
`sync_projects.py` 147-151) -/

/-- An observable event of a script run: a console message or an
attempted network call against a vendor API. -/
inductive Ev
  | msg (s : String)
  | net (s : String)
deriving DecidableEq, Repr

/-- Environment configuration as read by `os.getenv` (absent variable =
`none`). -/
structure Config where
  timecampToken : Option String
  timecampTaskId : Option String
  redmineUrl : Option String
  redmineApiKey : Option String
deriving DecidableEq, Repr

/-- Python truthiness of an `os.getenv` result: `None` and the empty
string are falsy. -/
def truthy : Option String → Bool
  | none => false
  | some s => !(s == "")

/-- The preview `show_sync_preview` only reads `tasks.json` and prints; it issues no
network call. -/
def previewTrace (tasks : List SourceTask) : List Ev :=
  [Ev.msg "Hierarchical Task Sync Preview:",
   Ev.msg ("Would sync " ++ toString tasks.length ++ " total tasks:")]

/-- Network calls of one run of `sync_hierarchical_tasks_to_timecamp`:
after the `if not azure_tasks: return` guard it always fetches the task
list, then issues the pass's create and archive calls. -/
def syncTrace (fuel rootId nextId0 : Nat) (fails : String → Bool)
    (tasks : List SourceTask) (entries : List TCEntry) : List Ev :=
  if tasks.isEmpty then []
  else
    Ev.net "GET /third_party/api/tasks" ::
      ((syncPass fuel rootId nextId0 fails tasks entries).creates.map
          (fun c => Ev.net ("POST /third_party/api/tasks " ++ c.external_task_id)) ++
        (syncPass fuel rootId nextId0 fails tasks entries).archives.map
          (fun i => Ev.net ("PUT /third_party/api/tasks " ++ toString i)))

/-- The `__main__` block of `sync_projects_new.py` (lines 265-277): the
preview always runs; the sync runs only under
`if TIMECAMP_API_TOKEN and TIMECAMP_TASK_ID`, otherwise a help message
is printed. -/
def mainNew (cfg : Config) (fuel rootId nextId0 : Nat) (fails : String → Bool)
    (tasks : List SourceTask) (entries : List TCEntry) : List Ev :=
  Ev.msg "Starting hierarchical task sync to TimeCamp" ::
    previewTrace tasks ++
    (if truthy cfg.timecampToken && truthy cfg.timecampTaskId then
      syncTrace fuel rootId nextId0 fails tasks entries
    else
      [Ev.msg "To run actual sync, set TIMECAMP_API_TOKEN2 and TIMECAMP_TASK_ID in .env file"]) ++
    [Ev.msg "Sync finished"]

/-- The `__main__` block of `sync_projects.py` (lines 147-151): it calls
`sync_projects_and_tasks()` unconditionally, whose first step
`get_redmine_projects` contacts the Redmine API and whose second step
fetches the TimeCamp task list — there is no configuration check. -/
def mainOld (cfg : Config) : List Ev :=
  [Ev.msg "Starting synchronization",
   Ev.net ("GET " ++ (cfg.redmineUrl.getD "None") ++ "/projects"),
   Ev.net "GET /third_party/api/tasks"]

/-- Does an event list contain a network call? -/
def hasNet (evs : List Ev) : Bool :=
  evs.any (fun e => match e with | Ev.net _ => true | Ev.msg _ => false)

/-! ## `export_time_entries_redmine.py` -/

/-- Discriminates `redmine_task_<i>` (issue) from `redmine_<i>`
(project). -/
inductive IdType
  | issue
  | project
deriving DecidableEq, Repr

/-- Decimal digits to a number; `none` on a non-digit or on the empty
string. -/
def digitsToNat : List Char → Option Nat
  | [] => none
  | cs =>
    cs.foldl
      (fun acc c =>
        acc.bind (fun n => if c.isDigit then some (n * 10 + (c.toNat - 48)) else none))
      (some 0)

/-- Strip leading and trailing whitespace, as Python's `int` does before
parsing. -/
def pyStrip (cs : List Char) : List Char :=
  ((cs.dropWhile Char.isWhitespace).reverse.dropWhile Char.isWhitespace).reverse

/-- Python's `int(s)` on a string: optional surrounding whitespace,
optional sign, decimal digits, `None` modelling `ValueError`.  (Digit
group underscores and non-ASCII digits, which Python also accepts, are
not modelled; no claim depends on them.) -/
def pyInt (s : String) : Option Int :=
  match pyStrip s.toList with
  | [] => none
  | '+' :: rest => (digitsToNat rest).map Int.ofNat
  | '-' :: rest => (digitsToNat rest).map (fun n => -(n : Int))
  | rest => (digitsToNat rest).map Int.ofNat

/-- Split a char list on every occurrence of `sep`; Python
`s.split(sep)` for a one-character separator (the result is never
empty, and empty groups are kept, e.g. `"a__".split('_') = ["a","",""]`). -/
def splitOnChar (sep : Char) : List Char → List (List Char)
  | [] => [[]]
  | c :: cs =>
    match splitOnChar sep cs with
    | [] => [[]]
    | g :: gs => if c == sep then [] :: g :: gs else (c :: g) :: gs

/-- Model of `addons_external_id.split('_')[-1]`. -/
def lastToken (s : String) : String :=
  String.mk ((splitOnChar '_' s.toList).getLastD [])

/-- Model of `Redmine.extract_id_from_addons_external_id` (lines 81-87); `Except`
models the `ValueError` raised either by `int(...)` or explicitly. -/
def extract_id_from_addons_external_id (s : String) : Except String (Int × IdType) :=
  if pyStartsWith s "redmine_task_" then
    match pyInt (lastToken s) with
    | none => .error ("invalid literal for int: " ++ lastToken s)
    | some n => .ok (n, IdType.issue)
  else if pyStartsWith s "redmine_" then
    match pyInt (lastToken s) with
    | none => .error ("invalid literal for int: " ++ lastToken s)
    | some n => .ok (n, IdType.project)
  else
    .error ("Invalid addons_external_id format: " ++ s)

/-- A TimeCamp time entry as consumed by `create_time_entry`; `duration`
is kept numeric (the script does `int(data['duration'])` on well-formed
entries). -/
structure TimeEntry where
  id : Nat
  user_id : Nat
  duration : Int
  description : String
  date : String
  addons_external_id : Option String
deriving DecidableEq, Repr

/-- A `redmine.time_entry.create(**kwargs)` call; `hoursSeconds` carries
the duration in seconds (the script passes `duration_seconds / 3600` as
a float, irrelevant to the claims). -/
structure RedmineCreateCall where
  spent_on : String
  hoursSeconds : Int
  activity_id : String
  comments : String
  redmine_user_id : Nat
  issue_id : Option Int
  project_id : Option Int
deriving DecidableEq, Repr

/-- Model of `Redmine.create_time_entry` (lines 31-66): `none` is an early
return that creates nothing (malformed tag, unparseable id, unmatched
user — `if not redmine_user_id` is Python truthiness, so a mapped id of
0 is also skipped); `some call` is the issued Redmine create. -/
def create_time_entry (userMapping : List (Nat × Nat)) (activityId : String)
    (d : TimeEntry) : Option RedmineCreateCall :=
  match d.addons_external_id with
  | none => none
  | some s =>
    if !(pyStartsWith s "redmine_") then none
    else
      match extract_id_from_addons_external_id s with
      | .error _ => none
      | .ok (externalId, idType) =>
        match List.lookup d.user_id userMapping with
        | none => none
        | some uid =>
          if uid == 0 then none
          else
            some
              { spent_on := d.date
                hoursSeconds := d.duration
                activity_id := activityId
                comments := "[tc:" ++ toString d.id ++ "] " ++ d.description
                redmine_user_id := uid
                issue_id := if idType == IdType.issue then some externalId else none
                project_id := if idType == IdType.project then some externalId else none }

/-- Model of `Redmine.handle_time_entries` loop body (lines 98-99): every fetched
entry is handed to `create_time_entry`, one after the other. -/
def handle_time_entries (userMapping : List (Nat × Nat)) (activityId : String)
    (entries : List TimeEntry) : List (Option RedmineCreateCall) :=
  entries.map (create_time_entry userMapping activityId)

/-! ## Concrete instances used by witnesses and counterexamples -/

/-- A self-referential source node (`task_id = parent_id = 1`). -/
def cycTask : SourceTask := ⟨1, "a", 1⟩

/-- A node whose parent id `5` matches nothing (dangling reference). -/
def danglingTask : SourceTask := ⟨2, "d", 5⟩

/-- Two-node source set: root `1` and its child `2`. -/
def demoTasks : List SourceTask := [⟨1, "P", 0⟩, ⟨2, "C", 1⟩]

/-- A destination entry for source node `1` whose TimeCamp id is `0`
(falsy in Python). -/
def zeroIdEntry : TCEntry := ⟨0, "P", some "sync_1", false⟩

/-- A destination entry already archived whose tag matches active source
node `1`. -/
def archivedEntry : TCEntry := ⟨7, "P", some "sync_1", true⟩

/-- An unarchived destination entry whose tag matches no source node. -/
def staleEntry : TCEntry := ⟨9, "old", some "sync_42", false⟩

/-- A configuration with nothing set. -/
def emptyConfig : Config := ⟨none, none, none, none⟩

/-- A malformed time entry: non-integer id suffix. -/
def badSuffixEntry : TimeEntry := ⟨11, 3, 3600, "work", "2024-01-02", some "redmine_abc"⟩

/-- The specified notion of hierarchy depth (spec §3, §8): the length of
the parent-link path from a node to a root, where a parent is a source
node carrying the referenced id.  This is the spec-side measuring stick
against which `get_hierarchy_level` is compared. -/
inductive PathToRoot (tasks : List SourceTask) : SourceTask → Nat → Prop where
  | root (t : SourceTask) (h : t.parent_id = 0) : PathToRoot tasks t 0
  | step (t p : SourceTask) (n : Nat) (hnz : t.parent_id ≠ 0) (hp : p ∈ tasks)
      (hid : p.task_id = t.parent_id) (hrec : PathToRoot tasks p n) :
      PathToRoot tasks t (n + 1)

/-! ## Association-list lemmas (Python dict semantics) -/

theorem lookup_dinsert [BEq α] [LawfulBEq α] (k k' : α) (v : β) (m : List (α × β)) :
    List.lookup k (dinsert k' v m) = if k == k' then some v else List.lookup k m := by
  induction m with
  | nil =>
    cases hkk : k == k' <;> simp [dinsert, List.lookup_cons, hkk]
  | cons p rest ih =>
    obtain ⟨a, b⟩ := p
    cases hak : a == k'
    · cases hka : k == a
      · simp [dinsert, hak, List.lookup_cons, hka, ih]
      · have hka' : k = a := eq_of_beq hka
        subst hka'
        simp [dinsert, hak, List.lookup_cons, hka]
    · have ha : a = k' := eq_of_beq hak
      subst ha
      cases hkk : k == a <;> simp [dinsert, List.lookup_cons, hkk]

theorem dinsert_of_lookup_none [BEq α] [LawfulBEq α] {k : α} {m : List (α × β)} (v : β)
    (h : List.lookup k m = none) : dinsert k v m = m ++ [(k, v)] := by
  induction m with
  | nil => simp [dinsert]
  | cons p rest ih =>
    obtain ⟨a, b⟩ := p
    rw [List.lookup_cons] at h
    cases hka : k == a
    · rw [hka] at h
      have hak : (a == k) = false := by
        cases hak' : a == k
        · rfl
        · have hk : k = a := (eq_of_beq hak').symm
          subst hk
          simp at hka
      have hrest : List.lookup k rest = none := h
      simp only [dinsert, hak, Bool.false_eq_true, if_false, List.cons_append]
      exact congrArg _ (ih hrest)
    · rw [hka] at h
      simp at h

theorem mem_dinsert [BEq α] [LawfulBEq α] {p : α × β} {k : α} {v : β} {m : List (α × β)}
    (h : p ∈ dinsert k v m) : p = (k, v) ∨ p ∈ m := by
  induction m with
  | nil => simpa [dinsert] using h
  | cons q rest ih =>
    obtain ⟨a, b⟩ := q
    cases hak : a == k
    · simp only [dinsert, hak, Bool.false_eq_true, if_false, List.mem_cons] at h
      rcases h with h | h
      · exact Or.inr (by simp [h])
      · rcases ih h with h' | h'
        · exact Or.inl h'
        · exact Or.inr (List.mem_cons_of_mem _ h')
    · simp only [dinsert, hak, if_true, List.mem_cons] at h
      rcases h with h | h
      · exact Or.inl h
      · exact Or.inr (List.mem_cons_of_mem _ h)

theorem mem_of_lookup_eq_some [BEq α] [LawfulBEq α] {k : α} {v : β} {m : List (α × β)}
    (h : List.lookup k m = some v) : (k, v) ∈ m := by
  induction m with
  | nil => simp [List.lookup] at h
  | cons q rest ih =>
    obtain ⟨a, b⟩ := q
    rw [List.lookup_cons] at h
    cases hka : k == a
    · rw [hka] at h
      exact List.mem_cons_of_mem _ (ih h)
    · rw [hka] at h
      have h1 : k = a := eq_of_beq hka
      have h2 : b = v := by simpa using h
      subst h1; subst h2
      exact List.mem_cons_self _ _

theorem keys_mem_dinsert [BEq α] [LawfulBEq α] {a k : α} {v : β} {m : List (α × β)}
    (h : a ∈ (dinsert k v m).map Prod.fst) : a = k ∨ a ∈ m.map Prod.fst := by
  rcases List.mem_map.1 h with ⟨p, hp, rfl⟩
  rcases mem_dinsert hp with h' | h'
  · subst h'; exact Or.inl rfl
  · exact Or.inr (List.mem_map_of_mem _ h')

theorem keys_nodup_dinsert [BEq α] [LawfulBEq α] {k : α} {v : β} {m : List (α × β)}
    (h : (m.map Prod.fst).Nodup) : ((dinsert k v m).map Prod.fst).Nodup := by
  induction m with
  | nil => simp [dinsert]
  | cons q rest ih =>
    obtain ⟨a, b⟩ := q
    simp only [List.map_cons, List.nodup_cons] at h
    cases hak : a == k
    · simp only [dinsert, hak, Bool.false_eq_true, if_false, List.map_cons, List.nodup_cons]
      refine ⟨fun hmem => ?_, ih h.2⟩
      rcases keys_mem_dinsert hmem with h' | h'
      · subst h'
        simp at hak
      · exact h.1 h'
    · have ha : a = k := eq_of_beq hak
      subst ha
      simpa [dinsert] using h

/-! ## String-prefix and tag lemmas -/

theorem charsBeginWith_append (p r : List Char) : charsBeginWith (p ++ r) p = true := by
  induction p with
  | nil => cases r <;> rfl
  | cons c cs ih => simp [charsBeginWith, ih]

theorem pyStartsWith_append (x : String) : pyStartsWith ("sync_" ++ x) "sync_" = true := by
  have : ("sync_" ++ x).toList = "sync_".toList ++ x.toList := by simp [String.toList]
  rw [pyStartsWith, this]
  exact charsBeginWith_append _ _

theorem pyStartsWith_extIdOf (t : SourceTask) : pyStartsWith (extIdOf t) "sync_" = true :=
  pyStartsWith_append _

theorem extTag_eq_some {e : TCEntry} {k : String} (h : extTag e = some k) :
    e.external_task_id = some k ∧ pyStartsWith k "sync_" = true := by
  cases he : e.external_task_id with
  | none => simp [extTag, he] at h
  | some s =>
    simp only [extTag, he] at h
    by_cases hs : pyStartsWith s "sync_" = true
    · rw [if_pos hs] at h
      have hsk : s = k := Option.some.inj h
      subst hsk
      exact ⟨rfl, hs⟩
    · rw [if_neg hs] at h
      simp at h

theorem extTag_of_fields {e : TCEntry} {k : String} (h1 : e.external_task_id = some k)
    (h2 : pyStartsWith k "sync_" = true) : extTag e = some k := by
  simp [extTag, h1, h2]

theorem extTag_markArchived (ids : List Nat) (e : TCEntry) :
    extTag (markArchived ids e) = extTag e := by
  unfold markArchived
  split <;> rfl

/-! ## `timecamp_tasks_map` construction lemmas -/

theorem lookup_tcInsert_isSome (m : List (String × TCEntry)) (e : TCEntry) (k : String) :
    (List.lookup k (tcInsert m e)).isSome = true ↔
      (List.lookup k m).isSome = true ∨ extTag e = some k := by
  unfold tcInsert
  cases he : extTag e with
  | none => simp
  | some s =>
    rw [lookup_dinsert]
    cases hks : k == s
    · have : ¬ (s = k) := fun h => by simp [h] at hks
      simp [hks, Option.some_inj, this]
    · have hk : k = s := eq_of_beq hks
      subst hk
      simp [hks]

theorem lookup_foldl_tcInsert_isSome (k : String) (entries : List TCEntry) :
    ∀ m : List (String × TCEntry),
      (List.lookup k (entries.foldl tcInsert m)).isSome = true ↔
        (List.lookup k m).isSome = true ∨ ∃ e ∈ entries, extTag e = some k := by
  induction entries with
  | nil => intro m; simp
  | cons e rest ih =>
    intro m
    rw [List.foldl_cons, ih, lookup_tcInsert_isSome]
    constructor
    · rintro (⟨h | h⟩ | h)
      · exact Or.inl h
      · exact Or.inr ⟨e, List.mem_cons_self _ _, h⟩
      · rcases h with ⟨e', he', h'⟩
        exact Or.inr ⟨e', List.mem_cons_of_mem _ he', h'⟩
    · rintro (h | ⟨e', he', h'⟩)
      · exact Or.inl (Or.inl h)
      · rcases List.mem_cons.1 he' with rfl | he''
        · exact Or.inl (Or.inr h')
        · exact Or.inr ⟨e', he'', h'⟩

theorem lookup_buildTCMap_isSome (k : String) (entries : List TCEntry) :
    (List.lookup k (buildTCMap entries)).isSome = true ↔ ∃ e ∈ entries, extTag e = some k := by
  rw [buildTCMap, lookup_foldl_tcInsert_isSome]
  simp

theorem pair_mem_tcInsert {p : String × TCEntry} {m : List (String × TCEntry)} {e : TCEntry}
    (h : p ∈ tcInsert m e) : p ∈ m ∨ (p.2 = e ∧ extTag e = some p.1) := by
  unfold tcInsert at h
  cases he : extTag e with
  | none => rw [he] at h; exact Or.inl h
  | some s =>
    rw [he] at h
    rcases mem_dinsert h with h' | h'
    · subst h'
      exact Or.inr ⟨rfl, by simp [he]⟩
    · exact Or.inl h'

theorem pair_mem_foldl_tcInsert {p : String × TCEntry} (entries : List TCEntry) :
    ∀ m : List (String × TCEntry), p ∈ entries.foldl tcInsert m →
      p ∈ m ∨ (p.2 ∈ entries ∧ extTag p.2 = some p.1) := by
  induction entries with
  | nil => intro m h; exact Or.inl h
  | cons e rest ih =>
    intro m h
    rw [List.foldl_cons] at h
    rcases ih _ h with h' | h'
    · rcases pair_mem_tcInsert h' with h'' | h''
      · exact Or.inl h''
      · exact Or.inr ⟨by rw [h''.1]; exact List.mem_cons_self _ _, by rw [h''.1]; exact h''.2⟩
    · exact Or.inr ⟨List.mem_cons_of_mem _ h'.1, h'.2⟩

theorem pair_mem_buildTCMap {p : String × TCEntry} {entries : List TCEntry}
    (h : p ∈ buildTCMap entries) : p.2 ∈ entries ∧ extTag p.2 = some p.1 := by
  rcases pair_mem_foldl_tcInsert entries [] h with h' | h'
  · simp at h'
  · exact h'

theorem keys_nodup_tcInsert {m : List (String × TCEntry)} (e : TCEntry)
    (h : (m.map Prod.fst).Nodup) : ((tcInsert m e).map Prod.fst).Nodup := by
  unfold tcInsert
  cases extTag e
  · exact h
  · exact keys_nodup_dinsert h

theorem keys_nodup_foldl_tcInsert (entries : List TCEntry) :
    ∀ m : List (String × TCEntry), (m.map Prod.fst).Nodup →
      ((entries.foldl tcInsert m).map Prod.fst).Nodup := by
  induction entries with
  | nil => intro m h; exact h
  | cons e rest ih =>
    intro m h
    rw [List.foldl_cons]
    exact ih _ (keys_nodup_tcInsert e h)

theorem keys_nodup_buildTCMap (entries : List TCEntry) :
    ((buildTCMap entries).map Prod.fst).Nodup :=
  keys_nodup_foldl_tcInsert entries [] (by simp)

/-! ## Main-loop step lemmas -/

theorem processTask_existing (r : Nat) (f : String → Bool) (st : SyncState) (t : SourceTask)
    (e : TCEntry) (h : List.lookup (extIdOf t) st.tcMap = some e) :
    processTask r f st t =
      { st with active := addActive st.active (extIdOf t),
                srcMap := dinsert t.task_id e.task_id st.srcMap } := by
  simp only [processTask, h]

theorem processTask_create_fail (r : Nat) (f : String → Bool) (st : SyncState) (t : SourceTask)
    (h : List.lookup (extIdOf t) st.tcMap = none) (hf : f (extIdOf t) = true) :
    processTask r f st t =
      { st with active := addActive st.active (extIdOf t),
                creates := st.creates ++
                  [⟨t.name, resolveParent r st.srcMap t.parent_id, extIdOf t⟩] } := by
  simp only [processTask, h, hf, if_true]

theorem processTask_create_ok (r : Nat) (f : String → Bool) (st : SyncState) (t : SourceTask)
    (h : List.lookup (extIdOf t) st.tcMap = none) (hf : f (extIdOf t) = false) :
    processTask r f st t =
      { st with active := addActive st.active (extIdOf t),
                creates := st.creates ++
                  [⟨t.name, resolveParent r st.srcMap t.parent_id, extIdOf t⟩],
                srcMap := dinsert t.task_id st.nextId st.srcMap,
                tcMap := dinsert (extIdOf t) ⟨st.nextId, t.name, some (extIdOf t), false⟩ st.tcMap,
                created := st.created ++ [⟨st.nextId, t.name, some (extIdOf t), false⟩],
                nextId := st.nextId + 1 } := by
  simp only [processTask, h, hf, Bool.false_eq_true, if_false]

theorem processTask_active (r : Nat) (f : String → Bool) (st : SyncState) (t : SourceTask) :
    (processTask r f st t).active = addActive st.active (extIdOf t) := by
  cases h : List.lookup (extIdOf t) st.tcMap with
  | some e => rw [processTask_existing r f st t e h]
  | none =>
    cases hf : f (extIdOf t)
    · rw [processTask_create_ok r f st t h hf]
    · rw [processTask_create_fail r f st t h hf]

theorem mem_addActive {s : List String} {x y : String} :
    y ∈ addActive s x ↔ y ∈ s ∨ y = x := by
  by_cases h : x ∈ s
  · simp only [addActive, if_pos h]
    constructor
    · exact Or.inl
    · rintro (hy | rfl)
      · exact hy
      · exact h
  · simp [addActive, if_neg h]

theorem processAll_nil (r : Nat) (f : String → Bool) (st : SyncState) :
    processAll r f st [] = st := rfl

theorem processAll_cons (r : Nat) (f : String → Bool) (st : SyncState) (t : SourceTask)
    (ts : List SourceTask) :
    processAll r f st (t :: ts) = processAll r f (processTask r f st t) ts := rfl

/-! ## Main-loop invariants -/

theorem mem_active_processAll (r : Nat) (f : String → Bool) (ts : List SourceTask) :
    ∀ (st : SyncState) (x : String),
      x ∈ (processAll r f st ts).active ↔ x ∈ st.active ∨ ∃ t ∈ ts, x = extIdOf t := by
  induction ts with
  | nil => intro st x; simp [processAll_nil]
  | cons t ts ih =>
    intro st x
    rw [processAll_cons, ih, processTask_active, mem_addActive]
    constructor
    · rintro ((hx | rfl) | ⟨u, hu, rfl⟩)
      · exact Or.inl hx
      · exact Or.inr ⟨t, List.mem_cons_self _ _, rfl⟩
      · exact Or.inr ⟨u, List.mem_cons_of_mem _ hu, rfl⟩
    · rintro (hx | ⟨u, hu, rfl⟩)
      · exact Or.inl (Or.inl hx)
      · rcases List.mem_cons.1 hu with rfl | hu'
        · exact Or.inl (Or.inr rfl)
        · exact Or.inr ⟨u, hu', rfl⟩

theorem active_sub_processAll (r : Nat) (f : String → Bool) (ts : List SourceTask)
    (st : SyncState) (x : String) (h : x ∈ st.active) : x ∈ (processAll r f st ts).active :=
  (mem_active_processAll r f ts st x).2 (Or.inl h)

theorem processTask_nextId_le (r : Nat) (f : String → Bool) (st : SyncState) (t : SourceTask) :
    st.nextId ≤ (processTask r f st t).nextId := by
  cases h : List.lookup (extIdOf t) st.tcMap with
  | some e => rw [processTask_existing r f st t e h]
  | none =>
    cases hf : f (extIdOf t)
    · rw [processTask_create_ok r f st t h hf]
      exact Nat.le_succ _
    · rw [processTask_create_fail r f st t h hf]

theorem nextId_le_processAll (r : Nat) (f : String → Bool) (ts : List SourceTask) :
    ∀ st : SyncState, st.nextId ≤ (processAll r f st ts).nextId := by
  induction ts with
  | nil => intro st; exact le_refl _
  | cons t ts ih =>
    intro st
    rw [processAll_cons]
    exact le_trans (processTask_nextId_le r f st t) (ih _)

theorem created_sub_processTask (r : Nat) (f : String → Bool) (st : SyncState) (t : SourceTask)
    {c : TCEntry} (h : c ∈ st.created) : c ∈ (processTask r f st t).created := by
  cases hl : List.lookup (extIdOf t) st.tcMap with
  | some e => rw [processTask_existing r f st t e hl]; exact h
  | none =>
    cases hf : f (extIdOf t)
    · rw [processTask_create_ok r f st t hl hf]
      exact List.mem_append_left _ h
    · rw [processTask_create_fail r f st t hl hf]; exact h

theorem created_sub_processAll (r : Nat) (f : String → Bool) (ts : List SourceTask) :
    ∀ (st : SyncState) {c : TCEntry}, c ∈ st.created → c ∈ (processAll r f st ts).created := by
  induction ts with
  | nil => intro st c h; exact h
  | cons t ts ih =>
    intro st c h
    rw [processAll_cons]
    exact ih _ (created_sub_processTask r f st t h)

theorem tcMap_sub_processTask (r : Nat) (f : String → Bool) (st : SyncState) (t : SourceTask)
    {p : String × TCEntry} (h : p ∈ st.tcMap) : p ∈ (processTask r f st t).tcMap := by
  cases hl : List.lookup (extIdOf t) st.tcMap with
  | some e => rw [processTask_existing r f st t e hl]; exact h
  | none =>
    cases hf : f (extIdOf t)
    · rw [processTask_create_ok r f st t hl hf]
      dsimp only
      rw [dinsert_of_lookup_none _ hl]
      exact List.mem_append_left _ h
    · rw [processTask_create_fail r f st t hl hf]; exact h

theorem tcMap_sub_processAll (r : Nat) (f : String → Bool) (ts : List SourceTask) :
    ∀ (st : SyncState) {p : String × TCEntry}, p ∈ st.tcMap →
      p ∈ (processAll r f st ts).tcMap := by
  induction ts with
  | nil => intro st p h; exact h
  | cons t ts ih =>
    intro st p h
    rw [processAll_cons]
    exact ih _ (tcMap_sub_processTask r f st t h)

theorem tcMap_pair_processAll (r : Nat) (f : String → Bool) (ts : List SourceTask) :
    ∀ (st : SyncState) (p : String × TCEntry), p ∈ (processAll r f st ts).tcMap →
      p ∈ st.tcMap ∨
        (p.2.external_task_id = some p.1 ∧ pyStartsWith p.1 "sync_" = true ∧
          p.1 ∈ (processAll r f st ts).active ∧ st.nextId ≤ p.2.task_id ∧
          p.2 ∈ (processAll r f st ts).created ∧ p.2.archived = false) := by
  induction ts with
  | nil => intro st p h; exact Or.inl h
  | cons t ts ih =>
    intro st p h
    rw [processAll_cons] at h
    rcases ih _ p h with h' | h'
    · cases hl : List.lookup (extIdOf t) st.tcMap with
      | some e =>
        rw [processTask_existing r f st t e hl] at h'
        exact Or.inl h'
      | none =>
        cases hf : f (extIdOf t)
        · rw [processTask_create_ok r f st t hl hf] at h'
          dsimp only at h'
          rcases mem_dinsert h' with rfl | hmem
          · refine Or.inr ⟨rfl, pyStartsWith_extIdOf t, ?_, le_refl _, ?_, rfl⟩
            · rw [processAll_cons]
              apply active_sub_processAll
              rw [processTask_active]
              exact mem_addActive.2 (Or.inr rfl)
            · rw [processAll_cons]
              apply created_sub_processAll
              rw [processTask_create_ok r f st t hl hf]
              dsimp only
              exact List.mem_append_right _ (List.mem_singleton.2 rfl)
          · exact Or.inl hmem
        · rw [processTask_create_fail r f st t hl hf] at h'
          exact Or.inl h'
    · refine Or.inr ⟨h'.1, h'.2.1, ?_, ?_, ?_, h'.2.2.2.2.2⟩
      · rw [processAll_cons]; exact h'.2.2.1
      · exact le_trans (processTask_nextId_le r f st t) h'.2.2.2.1
      · rw [processAll_cons]; exact h'.2.2.2.2.1

theorem created_mem_processAll (r : Nat) (f : String → Bool) (ts : List SourceTask) :
    ∀ (st : SyncState) (c : TCEntry), c ∈ (processAll r f st ts).created →
      c ∈ st.created ∨
        ∃ k, c.external_task_id = some k ∧ pyStartsWith k "sync_" = true ∧
          k ∈ (processAll r f st ts).active ∧ st.nextId ≤ c.task_id ∧ c.archived = false := by
  induction ts with
  | nil => intro st c h; exact Or.inl h
  | cons t ts ih =>
    intro st c h
    rw [processAll_cons] at h
    rcases ih _ c h with h' | ⟨k, hk1, hk2, hk3, hk4, hk5⟩
    · cases hl : List.lookup (extIdOf t) st.tcMap with
      | some e =>
        rw [processTask_existing r f st t e hl] at h'
        exact Or.inl h'
      | none =>
        cases hf : f (extIdOf t)
        · rw [processTask_create_ok r f st t hl hf] at h'
          dsimp only at h'
          rcases List.mem_append.1 h' with hmem | hmem
          · exact Or.inl hmem
          · have hc : c = ⟨st.nextId, t.name, some (extIdOf t), false⟩ := List.mem_singleton.1 hmem
            subst hc
            refine Or.inr ⟨extIdOf t, rfl, pyStartsWith_extIdOf t, ?_, le_refl _, rfl⟩
            rw [processAll_cons]
            apply active_sub_processAll
            rw [processTask_active]
            exact mem_addActive.2 (Or.inr rfl)
        · rw [processTask_create_fail r f st t hl hf] at h'
          exact Or.inl h'
    · refine Or.inr ⟨k, hk1, hk2, ?_, le_trans (processTask_nextId_le r f st t) hk4, hk5⟩
      rw [processAll_cons]
      exact hk3

theorem processAll_of_all_present (r : Nat) (f : String → Bool) (ts : List SourceTask) :
    ∀ st : SyncState, (∀ t ∈ ts, (List.lookup (extIdOf t) st.tcMap).isSome = true) →
      (processAll r f st ts).creates = st.creates ∧
        (processAll r f st ts).tcMap = st.tcMap ∧
        (processAll r f st ts).created = st.created := by
  induction ts with
  | nil => intro st _; exact ⟨rfl, rfl, rfl⟩
  | cons t ts ih =>
    intro st h
    obtain ⟨e, he⟩ := Option.isSome_iff_exists.1 (h t (List.mem_cons_self _ _))
    rw [processAll_cons, processTask_existing r f st t e he]
    exact ih _ (fun u hu => h u (List.mem_cons_of_mem _ hu))

theorem lookup_isSome_processTask (r : Nat) (f : String → Bool) (st : SyncState)
    (t : SourceTask) (k : String) (h : (List.lookup k st.tcMap).isSome = true) :
    (List.lookup k (processTask r f st t).tcMap).isSome = true := by
  cases hl : List.lookup (extIdOf t) st.tcMap with
  | some e => rw [processTask_existing r f st t e hl]; exact h
  | none =>
    cases hf : f (extIdOf t)
    · rw [processTask_create_ok r f st t hl hf]
      dsimp only
      rw [lookup_dinsert]
      cases hke : k == extIdOf t
      · simpa [hke] using h
      · simp [hke]
    · rw [processTask_create_fail r f st t hl hf]; exact h

theorem lookup_isSome_processAll (r : Nat) (f : String → Bool) (ts : List SourceTask) :
    ∀ (st : SyncState) (k : String), (List.lookup k st.tcMap).isSome = true →
      (List.lookup k (processAll r f st ts).tcMap).isSome = true := by
  induction ts with
  | nil => intro st k h; exact h
  | cons t ts ih =>
    intro st k h
    rw [processAll_cons]
    exact ih _ _ (lookup_isSome_processTask r f st t k h)

theorem lookup_isSome_of_mem_processAll (r : Nat) (f : String → Bool) (ts : List SourceTask) :
    ∀ (st : SyncState) (t : SourceTask), t ∈ ts → f (extIdOf t) = false →
      (List.lookup (extIdOf t) (processAll r f st ts).tcMap).isSome = true := by
  induction ts with
  | nil => intro st t h; exact absurd h (List.not_mem_nil t)
  | cons u ts ih =>
    intro st t ht hf
    rw [processAll_cons]
    rcases List.mem_cons.1 ht with rfl | ht'
    · apply lookup_isSome_processAll
      cases hl : List.lookup (extIdOf t) st.tcMap with
      | some e =>
        rw [processTask_existing r f st t e hl]
        simp [hl]
      | none =>
        rw [processTask_create_ok r f st t hl hf]
        dsimp only
        rw [lookup_dinsert]
        simp
    · exact ih _ t ht' hf

theorem keys_nodup_processTask (r : Nat) (f : String → Bool) (st : SyncState) (t : SourceTask)
    (h : (st.tcMap.map Prod.fst).Nodup) : (((processTask r f st t).tcMap).map Prod.fst).Nodup := by
  cases hl : List.lookup (extIdOf t) st.tcMap with
  | some e => rw [processTask_existing r f st t e hl]; exact h
  | none =>
    cases hf : f (extIdOf t)
    · rw [processTask_create_ok r f st t hl hf]
      exact keys_nodup_dinsert h
    · rw [processTask_create_fail r f st t hl hf]; exact h

theorem keys_nodup_processAll (r : Nat) (f : String → Bool) (ts : List SourceTask) :
    ∀ st : SyncState, (st.tcMap.map Prod.fst).Nodup →
      (((processAll r f st ts).tcMap).map Prod.fst).Nodup := by
  induction ts with
  | nil => intro st h; exact h
  | cons t ts ih =>
    intro st h
    rw [processAll_cons]
    exact ih _ (keys_nodup_processTask r f st t h)

/-! ## Archive-loop lemmas -/

theorem mem_archivePhase {i : Nat} {m : List (String × TCEntry)} {act : List String} :
    i ∈ archivePhase m act ↔
      ∃ p ∈ m, p.1 ∉ act ∧ p.2.archived = false ∧ p.2.task_id = i := by
  unfold archivePhase
  simp only [List.mem_map, List.mem_filter, Bool.and_eq_true, decide_eq_true_eq,
    Bool.not_eq_true']
  constructor
  · rintro ⟨p, ⟨hp, hna, har⟩, rfl⟩
    exact ⟨p, hp, hna, har, rfl⟩
  · rintro ⟨p, hp, hna, har, rfl⟩
    exact ⟨p, ⟨hp, hna, har⟩, rfl⟩

theorem archivePhase_eq_nil {m : List (String × TCEntry)} {act : List String}
    (h : ∀ p ∈ m, p.1 ∈ act ∨ p.2.archived = true) : archivePhase m act = [] := by
  unfold archivePhase
  have hf : m.filter (fun kv => decide (kv.1 ∉ act) && !kv.2.archived) = [] := by
    rw [List.filter_eq_nil_iff]
    intro p hp hc
    simp only [Bool.and_eq_true, decide_eq_true_eq, Bool.not_eq_true'] at hc
    rcases h p hp with h' | h'
    · exact hc.1 h'
    · rw [h'] at hc
      simp at hc
  rw [hf, List.map_nil]

/-! ## Server-side apply lemmas -/

theorem markArchived_of_mem (ids : List Nat) (e : TCEntry) (h : e.task_id ∈ ids) :
    markArchived ids e = { e with archived := true } := by
  simp [markArchived, h]

theorem markArchived_of_not_mem (ids : List Nat) (e : TCEntry) (h : e.task_id ∉ ids) :
    markArchived ids e = e := by
  simp [markArchived, h]

theorem markArchived_archived (ids : List Nat) (e : TCEntry) (h : e.archived = true) :
    (markArchived ids e).archived = true := by
  unfold markArchived
  split <;> simp [h]

theorem markArchived_task_id (ids : List Nat) (e : TCEntry) :
    (markArchived ids e).task_id = e.task_id := by
  unfold markArchived
  split <;> rfl

theorem dinsert_mapVal [BEq α] (g : β → γ) (k : α) (v : β) (m : List (α × β)) :
    dinsert k (g v) (m.map (fun p => (p.1, g p.2))) =
      (dinsert k v m).map (fun p => (p.1, g p.2)) := by
  induction m with
  | nil => rfl
  | cons q rest ih =>
    obtain ⟨a, b⟩ := q
    cases hak : a == k
    · simp [dinsert, hak, ih]
    · simp [dinsert, hak]

theorem tcInsert_mapVal (g : TCEntry → TCEntry) (hg : ∀ e, extTag (g e) = extTag e)
    (m : List (String × TCEntry)) (e : TCEntry) :
    tcInsert (m.map (fun p => (p.1, g p.2))) (g e) =
      (tcInsert m e).map (fun p => (p.1, g p.2)) := by
  unfold tcInsert
  rw [hg e]
  cases extTag e with
  | none => rfl
  | some k => exact dinsert_mapVal g k e m

theorem foldl_tcInsert_mapVal (g : TCEntry → TCEntry) (hg : ∀ e, extTag (g e) = extTag e)
    (entries : List TCEntry) :
    ∀ m : List (String × TCEntry),
      (entries.map g).foldl tcInsert (m.map (fun p => (p.1, g p.2))) =
        (entries.foldl tcInsert m).map (fun p => (p.1, g p.2)) := by
  induction entries with
  | nil => intro m; rfl
  | cons e rest ih =>
    intro m
    rw [List.map_cons, List.foldl_cons, List.foldl_cons, tcInsert_mapVal g hg, ih]

theorem buildTCMap_map (g : TCEntry → TCEntry) (hg : ∀ e, extTag (g e) = extTag e)
    (entries : List TCEntry) :
    buildTCMap (entries.map g) = (buildTCMap entries).map (fun p => (p.1, g p.2)) := by
  have h := foldl_tcInsert_mapVal g hg entries []
  simpa [buildTCMap] using h

theorem buildTCMap_append (a b : List TCEntry) :
    buildTCMap (a ++ b) = b.foldl tcInsert (buildTCMap a) := by
  rw [buildTCMap, buildTCMap, List.foldl_append]

/-! ## Hierarchy-level lemmas -/

theorem get_hierarchy_level_root (t : SourceTask) (tasks : List SourceTask)
    (h : t.parent_id = 0) (fuel : Nat) :
    get_hierarchy_level (fuel + 1) t tasks = some 0 := by
  simp [get_hierarchy_level, h]

theorem get_hierarchy_level_dangling (t : SourceTask) (tasks : List SourceTask)
    (hnz : t.parent_id ≠ 0) (hfind : findTask tasks t.parent_id = none) (fuel : Nat) :
    get_hierarchy_level (fuel + 1) t tasks = some 0 := by
  simp only [get_hierarchy_level]
  rw [if_neg (by simp [hnz]), hfind]

theorem get_hierarchy_level_step (t p : SourceTask) (tasks : List SourceTask)
    (hnz : t.parent_id ≠ 0) (hfind : findTask tasks t.parent_id = some p) (fuel : Nat) :
    get_hierarchy_level (fuel + 1) t tasks =
      (get_hierarchy_level fuel p tasks).map (· + 1) := by
  simp only [get_hierarchy_level]
  rw [if_neg (by simp [hnz]), hfind]

theorem get_hierarchy_level_none_of_chain (tasks : List SourceTask) (g : Nat → SourceTask)
    (hg : ∀ i, (g i).parent_id ≠ 0 ∧ findTask tasks (g i).parent_id = some (g (i + 1))) :
    ∀ fuel i, get_hierarchy_level fuel (g i) tasks = none := by
  intro fuel
  induction fuel with
  | zero => intro i; rfl
  | succ f ih =>
    intro i
    rw [get_hierarchy_level_step (g i) (g (i + 1)) tasks (hg i).1 (hg i).2, ih (i + 1)]
    rfl

theorem find_eq_of_nodup (tasks : List SourceTask) (p : SourceTask) (pid : Nat)
    (hnd : (tasks.map (fun t => t.task_id)).Nodup) (hp : p ∈ tasks) (hid : p.task_id = pid) :
    findTask tasks pid = some p := by
  induction tasks with
  | nil => cases hp
  | cons a rest ih =>
    simp only [List.map_cons, List.nodup_cons] at hnd
    rcases List.mem_cons.1 hp with rfl | hp'
    · unfold findTask
      exact List.find?_cons_of_pos _ (by simp [hid])
    · by_cases ha : a.task_id = pid
      · exfalso
        apply hnd.1
        rw [ha, ← hid]
        exact List.mem_map_of_mem _ hp'
      · unfold findTask at ih ⊢
        rw [List.find?_cons_of_neg _ (by simp [ha])]
        exact ih hnd.2 hp'

theorem get_hierarchy_level_mono (tasks : List SourceTask) :
    ∀ (fuel fuel' : Nat) (t : SourceTask) (n : Nat), fuel ≤ fuel' →
      get_hierarchy_level fuel t tasks = some n →
      get_hierarchy_level fuel' t tasks = some n := by
  intro fuel
  induction fuel with
  | zero => intro fuel' t n _ h; exact absurd h (by simp [get_hierarchy_level])
  | succ f ih =>
    intro fuel' t n hle h
    obtain ⟨f', rfl⟩ : ∃ f'', fuel' = f'' + 1 := ⟨fuel' - 1, by omega⟩
    by_cases hz : t.parent_id = 0
    · rw [get_hierarchy_level_root t tasks hz] at h ⊢
      exact h
    · cases hfind : findTask tasks t.parent_id with
      | none =>
        rw [get_hierarchy_level_dangling t tasks hz hfind] at h ⊢
        exact h
      | some p =>
        rw [get_hierarchy_level_step t p tasks hz hfind] at h ⊢
        rcases Option.map_eq_some'.1 h with ⟨m, hm, rfl⟩
        rw [ih f' p m (by omega) hm]
        rfl

theorem pathToRoot_get_hierarchy_level (tasks : List SourceTask)
    (hnd : (tasks.map (fun t => t.task_id)).Nodup) :
    ∀ (t : SourceTask) (n : Nat), PathToRoot tasks t n →
      ∀ fuel : Nat, n < fuel → get_hierarchy_level fuel t tasks = some n := by
  intro t n hpath
  induction hpath with
  | root u hu =>
    intro fuel hf
    obtain ⟨f', rfl⟩ : ∃ f'', fuel = f'' + 1 := ⟨fuel - 1, by omega⟩
    exact get_hierarchy_level_root u tasks hu f'
  | step u p n hnz hp hid hrec ih =>
    intro fuel hf
    obtain ⟨f', rfl⟩ : ∃ f'', fuel = f'' + 1 := ⟨fuel - 1, by omega⟩
    have hfind := find_eq_of_nodup tasks p u.parent_id hnd hp hid
    rw [get_hierarchy_level_step u p tasks hnz hfind, ih f' (by omega)]
    rfl

/-! ## Sort-order lemmas -/

theorem keyLe_rfl (a : SourceTask × Nat) : keyLe a a = true := by
  simp [keyLe]

theorem indexOf_cons_eq [BEq α] [LawfulBEq α] (a b : α) (l : List α) :
    List.indexOf a (b :: l) = if b == a then 0 else List.indexOf a l + 1 := by
  rw [List.indexOf_cons]
  cases h : b == a <;> simp [h]

theorem indexOf_lt_of_pairwise [BEq α] [LawfulBEq α] {le : α → α → Bool} :
    ∀ {l : List α} {a b : α}, l.Pairwise (fun x y => le x y = true) → a ∈ l → b ∈ l →
      le a a = true → le b a = false → l.indexOf a < l.indexOf b := by
  intro l
  induction l with
  | nil => intro a b _ ha _ _ _; cases ha
  | cons x t ih =>
    intro a b hpw ha hb hra hba
    rw [List.pairwise_cons] at hpw
    by_cases hxa : x = a
    · subst hxa
      have hbx : b ≠ x := by
        intro h
        subst h
        rw [hra] at hba
        cases hba
      rw [indexOf_cons_eq, indexOf_cons_eq, if_pos (by simp), if_neg (by simpa using Ne.symm hbx)]
      exact Nat.succ_pos _
    · have ha' : a ∈ t := by
        rcases List.mem_cons.1 ha with h | h
        · exact absurd h.symm hxa
        · exact h
      have hbx : b ≠ x := by
        intro h
        subst h
        rw [hpw.1 a ha'] at hba
        cases hba
      have hb' : b ∈ t := by
        rcases List.mem_cons.1 hb with h | h
        · exact absurd h hbx
        · exact h
      rw [indexOf_cons_eq, indexOf_cons_eq, if_neg (by simpa using hxa),
        if_neg (by simpa using Ne.symm hbx)]
      have := ih hpw.2 ha' hb' hra hba
      omega

theorem sortTasks_pairwise (fuel : Nat) (tasks : List SourceTask) :
    (sortTasks fuel tasks).Pairwise (fun x y => keyLe x y = true) :=
  List.sorted_insertionSort KeyRel (annotate fuel tasks)

theorem sortTasks_perm (fuel : Nat) (tasks : List SourceTask) :
    (sortTasks fuel tasks).Perm (annotate fuel tasks) :=
  List.perm_insertionSort KeyRel (annotate fuel tasks)

theorem mem_sortTasks (fuel : Nat) (tasks : List SourceTask) (t : SourceTask) (h : t ∈ tasks) :
    (t, levelD fuel tasks t) ∈ sortTasks fuel tasks := by
  rw [(sortTasks_perm fuel tasks).mem_iff]
  exact List.mem_map_of_mem _ h

theorem mem_sortTasks_fst (fuel : Nat) (tasks : List SourceTask) (u : SourceTask) :
    u ∈ (sortTasks fuel tasks).map Prod.fst ↔ u ∈ tasks := by
  rw [List.mem_map]
  constructor
  · rintro ⟨x, hx, rfl⟩
    rw [(sortTasks_perm fuel tasks).mem_iff] at hx
    rcases List.mem_map.1 hx with ⟨v, hv, rfl⟩
    exact hv
  · intro hu
    exact ⟨(u, levelD fuel tasks u), mem_sortTasks fuel tasks u hu, rfl⟩

/-! ## Unfolding the pass -/

theorem syncPass_empty (fuel rootId nextId0 : Nat) (fails : String → Bool)
    (entries : List TCEntry) :
    syncPass fuel rootId nextId0 fails [] entries = emptyResult := rfl

theorem syncPass_eq_of_ne_nil (fuel rootId nextId0 : Nat) (fails : String → Bool)
    (tasks : List SourceTask) (entries : List TCEntry) (h : tasks ≠ []) :
    syncPass fuel rootId nextId0 fails tasks entries =
      { creates := (processAll rootId fails ⟨buildTCMap entries, [], [], [], [], nextId0⟩
          ((sortTasks fuel tasks).map Prod.fst)).creates
        archives := archivePhase
          (processAll rootId fails ⟨buildTCMap entries, [], [], [], [], nextId0⟩
            ((sortTasks fuel tasks).map Prod.fst)).tcMap
          (processAll rootId fails ⟨buildTCMap entries, [], [], [], [], nextId0⟩
            ((sortTasks fuel tasks).map Prod.fst)).active
        created := (processAll rootId fails ⟨buildTCMap entries, [], [], [], [], nextId0⟩
          ((sortTasks fuel tasks).map Prod.fst)).created
        active := (processAll rootId fails ⟨buildTCMap entries, [], [], [], [], nextId0⟩
          ((sortTasks fuel tasks).map Prod.fst)).active
        tcMap := (processAll rootId fails ⟨buildTCMap entries, [], [], [], [], nextId0⟩
          ((sortTasks fuel tasks).map Prod.fst)).tcMap
        srcMap := (processAll rootId fails ⟨buildTCMap entries, [], [], [], [], nextId0⟩
          ((sortTasks fuel tasks).map Prod.fst)).srcMap } := by
  unfold syncPass
  rw [if_neg (by simpa [List.isEmpty_iff] using h)]

/-! ## Second-run lemmas (idempotence machinery) -/

theorem processAll_no_creates_of_present (rootId n1 : Nat) (f : String → Bool)
    (ts : List SourceTask) (E2 : List TCEntry)
    (hkey : ∀ t ∈ ts, ∃ e ∈ E2, extTag e = some (extIdOf t)) :
    (processAll rootId f ⟨buildTCMap E2, [], [], [], [], n1⟩ ts).creates = [] ∧
      (processAll rootId f ⟨buildTCMap E2, [], [], [], [], n1⟩ ts).tcMap = buildTCMap E2 ∧
      (processAll rootId f ⟨buildTCMap E2, [], [], [], [], n1⟩ ts).created = [] := by
  have hp : ∀ t ∈ ts,
      (List.lookup (extIdOf t) (⟨buildTCMap E2, [], [], [], [], n1⟩ : SyncState).tcMap).isSome
        = true := by
    intro t ht
    have : (⟨buildTCMap E2, [], [], [], [], n1⟩ : SyncState).tcMap = buildTCMap E2 := rfl
    rw [this, lookup_buildTCMap_isSome]
    exact hkey t ht
  obtain ⟨h1, h2, h3⟩ := processAll_of_all_present rootId f ts _ hp
  exact ⟨h1, h2, h3⟩

theorem firstRun_covers (rootId n0 : Nat) (ts : List SourceTask) (entries : List TCEntry)
    (archIds : List Nat) :
    ∀ t ∈ ts,
      ∃ e ∈ entries.map (markArchived archIds) ++
          (processAll rootId noFail ⟨buildTCMap entries, [], [], [], [], n0⟩ ts).created,
        extTag e = some (extIdOf t) := by
  intro t ht
  have hsome := lookup_isSome_of_mem_processAll rootId noFail ts
    ⟨buildTCMap entries, [], [], [], [], n0⟩ t ht rfl
  obtain ⟨e, he⟩ := Option.isSome_iff_exists.1 hsome
  have hpair := mem_of_lookup_eq_some he
  rcases tcMap_pair_processAll rootId noFail ts _ (extIdOf t, e) hpair with hp | hp
  · have h2 := pair_mem_buildTCMap (p := (extIdOf t, e)) hp
    exact ⟨markArchived archIds e, List.mem_append_left _ (List.mem_map_of_mem _ h2.1),
      by rw [extTag_markArchived]; exact h2.2⟩
  · exact ⟨e, List.mem_append_right _ hp.2.2.2.2.1, extTag_of_fields hp.1 hp.2.1⟩

theorem archives_nil_after_apply (rootId n0 : Nat) (ts : List SourceTask)
    (entries : List TCEntry) (act2 : List String)
    (hact : ∀ x, x ∈ act2 ↔ ∃ t ∈ ts, x = extIdOf t) :
    archivePhase
      (buildTCMap (entries.map (markArchived (archivePhase
          (processAll rootId noFail ⟨buildTCMap entries, [], [], [], [], n0⟩ ts).tcMap
          (processAll rootId noFail ⟨buildTCMap entries, [], [], [], [], n0⟩ ts).active)) ++
        (processAll rootId noFail ⟨buildTCMap entries, [], [], [], [], n0⟩ ts).created))
      act2 = [] := by
  apply archivePhase_eq_nil
  intro p hp
  rw [buildTCMap_append,
    buildTCMap_map (markArchived _) (fun e => extTag_markArchived _ e)] at hp
  have hactive1 : ∀ x,
      x ∈ (processAll rootId noFail ⟨buildTCMap entries, [], [], [], [], n0⟩ ts).active ↔
        ∃ t ∈ ts, x = extIdOf t := by
    intro x
    rw [mem_active_processAll]
    simp
  rcases pair_mem_foldl_tcInsert _ _ hp with hp' | hp'
  · rcases List.mem_map.1 hp' with ⟨q, hq, rfl⟩
    by_cases hmem : q.1 ∈ act2
    · exact Or.inl hmem
    · right
      by_cases harch : q.2.archived = true
      · exact markArchived_archived _ _ harch
      · have hq1 : q ∈ (processAll rootId noFail
            ⟨buildTCMap entries, [], [], [], [], n0⟩ ts).tcMap :=
          tcMap_sub_processAll rootId noFail ts _ hq
        have hnact1 : q.1 ∉ (processAll rootId noFail
            ⟨buildTCMap entries, [], [], [], [], n0⟩ ts).active := by
          intro hx
          exact hmem ((hact q.1).2 ((hactive1 q.1).1 hx))
        have harv : q.2.task_id ∈ archivePhase
            (processAll rootId noFail ⟨buildTCMap entries, [], [], [], [], n0⟩ ts).tcMap
            (processAll rootId noFail ⟨buildTCMap entries, [], [], [], [], n0⟩ ts).active :=
          mem_archivePhase.2 ⟨q, hq1, hnact1, by simpa using harch, rfl⟩
        rw [markArchived_of_mem _ _ harv]
  · rcases created_mem_processAll rootId noFail ts _ p.2 hp'.1 with h0 | ⟨k, hk1, _, hk3, _, _⟩
    · cases h0
    · left
      have hkp : k = p.1 := by
        have := extTag_eq_some hp'.2
        rw [hk1] at this
        exact Option.some.inj this.1
      subst hkp
      exact (hact p.1).2 ((hactive1 p.1).1 hk3)

/-! ## Claim theorems -/

/-- Claim C2: Idempotence of the sync pass: running
`sync_hierarchical_tasks_to_timecamp` a second time against the same
unchanged source node set and the destination set produced by a first
run in which every issued create succeeded yields zero create calls and
zero archive calls. -/
theorem claim_C2_idempotent (fuel rootId nextId0 nextId1 : Nat)
    (tasks : List SourceTask) (entries : List TCEntry) :
    (syncPass fuel rootId nextId1 noFail tasks
        (applyPass entries (syncPass fuel rootId nextId0 noFail tasks entries))).creates = [] ∧
      (syncPass fuel rootId nextId1 noFail tasks
        (applyPass entries (syncPass fuel rootId nextId0 noFail tasks entries))).archives = [] := by
  by_cases hne : tasks = []
  · subst hne
    exact ⟨rfl, rfl⟩
  · have hr1 := syncPass_eq_of_ne_nil fuel rootId nextId0 noFail tasks entries hne
    have hr2 := syncPass_eq_of_ne_nil fuel rootId nextId1 noFail tasks
      (applyPass entries (syncPass fuel rootId nextId0 noFail tasks entries)) hne
    have hE2 : applyPass entries (syncPass fuel rootId nextId0 noFail tasks entries) =
        entries.map (markArchived (archivePhase
          (processAll rootId noFail ⟨buildTCMap entries, [], [], [], [], nextId0⟩
            ((sortTasks fuel tasks).map Prod.fst)).tcMap
          (processAll rootId noFail ⟨buildTCMap entries, [], [], [], [], nextId0⟩
            ((sortTasks fuel tasks).map Prod.fst)).active)) ++
        (processAll rootId noFail ⟨buildTCMap entries, [], [], [], [], nextId0⟩
          ((sortTasks fuel tasks).map Prod.fst)).created := by
      rw [hr1]
      rfl
    have hkey := firstRun_covers rootId nextId0 ((sortTasks fuel tasks).map Prod.fst) entries
      (archivePhase
        (processAll rootId noFail ⟨buildTCMap entries, [], [], [], [], nextId0⟩
          ((sortTasks fuel tasks).map Prod.fst)).tcMap
        (processAll rootId noFail ⟨buildTCMap entries, [], [], [], [], nextId0⟩
          ((sortTasks fuel tasks).map Prod.fst)).active)
    rw [← hE2] at hkey
    obtain ⟨hc, hm, _⟩ := processAll_no_creates_of_present rootId nextId1 noFail
      ((sortTasks fuel tasks).map Prod.fst)
      (applyPass entries (syncPass fuel rootId nextId0 noFail tasks entries)) hkey
    constructor
    · rw [hr2]
      exact hc
    · rw [hr2]
      show archivePhase _ _ = []
      rw [hm, hE2]
      apply archives_nil_after_apply
      intro x
      rw [mem_active_processAll]
      simp

/-- Claim C1 counterexample: The claim that a cyclic parent chain makes
`get_hierarchy_level` return 0 and terminate is false on the code: for
the self-referential node `cycTask` the recursion returns no result at
any recursion depth (the Python original recurses without bound — there
is no visited-set). -/
theorem claim_C1_counterexample :
    ¬ ∃ fuel n, get_hierarchy_level fuel cycTask [cycTask] = some n := by
  rintro ⟨fuel, n, h⟩
  have hchain : ∀ i : Nat, ((fun _ => cycTask) i : SourceTask).parent_id ≠ 0 ∧
      findTask [cycTask] ((fun _ => cycTask) i : SourceTask).parent_id =
        some ((fun _ => cycTask) (i + 1) : SourceTask) := by
    intro i
    show cycTask.parent_id ≠ 0 ∧ findTask [cycTask] cycTask.parent_id = some cycTask
    exact ⟨by decide, by decide⟩
  have h2 : get_hierarchy_level fuel cycTask [cycTask] = none := by
    simpa using get_hierarchy_level_none_of_chain [cycTask] (fun _ => cycTask) hchain fuel 0
  rw [h2] at h
  cases h

/-- Claim C1 amended: A node whose parent reference dangles (no task in
the set carries the referenced id) terminates with level 0, but a node
on an infinite parent chain — any cycle, in particular a
self-referential node — never returns at any recursion depth:
`get_hierarchy_level` has no visited-set guard. -/
theorem claim_C1_dangling_zero_cycle_diverges (tasks : List SourceTask) (t : SourceTask) :
    (t.parent_id ≠ 0 → findTask tasks t.parent_id = none →
      ∀ fuel, get_hierarchy_level (fuel + 1) t tasks = some 0) ∧
    (∀ g : Nat → SourceTask, g 0 = t →
      (∀ i, (g i).parent_id ≠ 0 ∧ findTask tasks (g i).parent_id = some (g (i + 1))) →
      ∀ fuel, get_hierarchy_level fuel t tasks = none) := by
  constructor
  · intro hnz hfind fuel
    exact get_hierarchy_level_dangling t tasks hnz hfind fuel
  · intro g hg0 hg fuel
    have h := get_hierarchy_level_none_of_chain tasks g hg fuel 0
    rwa [hg0] at h

/-- Witness for the amended C1: the dangling node gets level 0, the
self-loop gets no answer even with recursion depth 7. -/
theorem claim_C1_witness :
    get_hierarchy_level 3 danglingTask [danglingTask] = some 0 ∧
      get_hierarchy_level 7 cycTask [cycTask] = none := by
  constructor
  · exact (claim_C1_dangling_zero_cycle_diverges [danglingTask] danglingTask).1
      (by decide) (by decide) 2
  · have hchain : ∀ i : Nat, ((fun _ => cycTask) i : SourceTask).parent_id ≠ 0 ∧
        findTask [cycTask] ((fun _ => cycTask) i : SourceTask).parent_id =
          some ((fun _ => cycTask) (i + 1) : SourceTask) := by
      intro i
      show cycTask.parent_id ≠ 0 ∧ findTask [cycTask] cycTask.parent_id = some cycTask
      exact ⟨by decide, by decide⟩
    exact (claim_C1_dangling_zero_cycle_diverges [cycTask] cycTask).2
      (fun _ => cycTask) rfl hchain 7

/-- Claim C6: For a source set with unique ids (spec §3 invariant) in
which a root is reachable from every node along parent links,
`get_hierarchy_level` of a node equals the length of its parent-link
path to its root, at every sufficient recursion depth. -/
theorem claim_C6_level_eq_path_length (tasks : List SourceTask) (t : SourceTask) (n fuel : Nat)
    (hnd : (tasks.map (fun u => u.task_id)).Nodup)
    (_hroot : ∀ u ∈ tasks, ∃ m, PathToRoot tasks u m)
    (hpath : PathToRoot tasks t n) (hfuel : n < fuel) :
    get_hierarchy_level fuel t tasks = some n :=
  pathToRoot_get_hierarchy_level tasks hnd t n hpath fuel hfuel

/-- Witness for C6: in `demoTasks` the child node has path length 1 and
`get_hierarchy_level` computes 1. -/
theorem claim_C6_witness :
    get_hierarchy_level 3 (⟨2, "C", 1⟩ : SourceTask) demoTasks = some 1 := by
  have hpathP : PathToRoot demoTasks ⟨1, "P", 0⟩ 0 := PathToRoot.root _ rfl
  have hpathC : PathToRoot demoTasks ⟨2, "C", 1⟩ 1 :=
    PathToRoot.step _ ⟨1, "P", 0⟩ 0 (by decide) (by decide) (by decide) hpathP
  refine claim_C6_level_eq_path_length demoTasks _ 1 3 (by decide) ?_ hpathC (by decide)
  intro u hu
  have hu' : u = ⟨1, "P", 0⟩ ∨ u = ⟨2, "C", 1⟩ := by simpa [demoTasks] using hu
  rcases hu' with rfl | rfl
  · exact ⟨0, hpathP⟩
  · exact ⟨1, hpathC⟩

/-- Claim C7: With unique source ids and all hierarchy levels defined, the
sorted order produced from the key `(level, task_id)` is sorted by that
key, and every node whose non-zero `parent_id` references a node of the
set appears strictly after that parent. -/
theorem claim_C7_parents_before_children (fuel : Nat) (tasks : List SourceTask)
    (p c : SourceTask) (hnd : (tasks.map (fun u => u.task_id)).Nodup)
    (hl : ∀ u ∈ tasks, (get_hierarchy_level fuel u tasks).isSome = true)
    (hp : p ∈ tasks) (hc : c ∈ tasks) (hpc : c.parent_id = p.task_id)
    (hnz : c.parent_id ≠ 0) :
    (sortTasks fuel tasks).Pairwise (fun a b => keyLe a b = true) ∧
      (sortTasks fuel tasks).indexOf (p, levelD fuel tasks p) <
        (sortTasks fuel tasks).indexOf (c, levelD fuel tasks c) := by
  refine ⟨sortTasks_pairwise fuel tasks, ?_⟩
  obtain ⟨lp, hlp⟩ := Option.isSome_iff_exists.1 (hl p hp)
  obtain ⟨lc, hlc⟩ := Option.isSome_iff_exists.1 (hl c hc)
  have hfind := find_eq_of_nodup tasks p c.parent_id hnd hp hpc.symm
  obtain ⟨f', rfl⟩ : ∃ f'', fuel = f'' + 1 := by
    cases fuel with
    | zero => exact absurd hlc (by simp [get_hierarchy_level])
    | succ f => exact ⟨f, rfl⟩
  have hstep := get_hierarchy_level_step c p tasks hnz hfind f'
  rw [hlc] at hstep
  obtain ⟨m, hm, hmc⟩ := Option.map_eq_some'.1 hstep.symm
  have hm' : get_hierarchy_level (f' + 1) p tasks = some m :=
    get_hierarchy_level_mono tasks f' (f' + 1) p m (Nat.le_succ _) hm
  have hlev : levelD (f' + 1) tasks c = levelD (f' + 1) tasks p + 1 := by
    unfold levelD
    rw [hlc, hm']
    simpa using hmc.symm
  have hkf : keyLe (c, levelD (f' + 1) tasks c) (p, levelD (f' + 1) tasks p) = false := by
    rw [hlev]
    simp [keyLe]
  exact indexOf_lt_of_pairwise (sortTasks_pairwise _ tasks) (mem_sortTasks _ tasks p hp)
    (mem_sortTasks _ tasks c hc) (keyLe_rfl _) hkf

/-- Witness for C7 on `demoTasks`: the parent's pair sits strictly
before the child's pair in the sorted list. -/
theorem claim_C7_witness :
    (sortTasks 3 demoTasks).Pairwise (fun a b => keyLe a b = true) ∧
      (sortTasks 3 demoTasks).indexOf (⟨1, "P", 0⟩, levelD 3 demoTasks ⟨1, "P", 0⟩) <
        (sortTasks 3 demoTasks).indexOf (⟨2, "C", 1⟩, levelD 3 demoTasks ⟨2, "C", 1⟩) :=
  claim_C7_parents_before_children 3 demoTasks ⟨1, "P", 0⟩ ⟨2, "C", 1⟩ (by decide) (by decide)
    (by decide) (by decide) (by decide) (by decide)

/-- Claim C5 counterexample: As stated the claim is false: when the
running mapping table maps the parent's source id to destination id 0,
the mapping is present, yet `if not parent_timecamp_id` (Python
truthiness) treats 0 as missing and the code parents the child under the
configured root id instead.  Concretely, with the pre-existing
destination entry `zeroIdEntry` (tag `sync_1`, TimeCamp id 0), the
child's create call is parented under root 999, not under the mapped
id 0. -/
theorem claim_C5_counterexample :
    List.lookup 1 [(1, 0)] = some 0 ∧ (1 : Nat) ≠ 0 ∧
      resolveParent 999 [(1, 0)] 1 ≠ 0 ∧ resolveParent 999 [(1, 0)] 1 = 999 ∧
      (syncPass 3 999 500 noFail demoTasks [zeroIdEntry]).creates =
        [⟨"C", 999, "sync_2"⟩] := by
  refine ⟨rfl, by decide, by decide, rfl, ?_⟩
  decide

/-- Claim C5 amended: Parent resolution during the pass
(`resolveParent`, used verbatim by `processTask`): `parent_id = 0`
resolves to the configured root id; a non-zero `parent_id` resolves to
the mapped destination id when the running table maps it to a non-zero
(truthy) id; and it falls back to the root id when the table has no
entry — or maps it to the falsy id 0. -/
theorem claim_C5_parent_resolution (rootId : Nat) (m : List (Nat × Nat)) (pid : Nat) :
    (pid = 0 → resolveParent rootId m pid = rootId) ∧
    (∀ d, pid ≠ 0 → List.lookup pid m = some d → d ≠ 0 → resolveParent rootId m pid = d) ∧
    (pid ≠ 0 → List.lookup pid m = none → resolveParent rootId m pid = rootId) ∧
    (pid ≠ 0 → List.lookup pid m = some 0 → resolveParent rootId m pid = rootId) := by
  refine ⟨?_, ?_, ?_, ?_⟩
  · intro h
    simp [resolveParent, h]
  · intro d hnz hl hd
    simp [resolveParent, hnz, hl, hd]
  · intro hnz hl
    simp [resolveParent, hnz, hl]
  · intro hnz hl
    simp [resolveParent, hnz, hl]

/-- Witness for the amended C5: all four resolution cases at concrete
inputs. -/
theorem claim_C5_witness :
    resolveParent 999 [(1, 7)] 0 = 999 ∧ resolveParent 999 [(1, 7)] 1 = 7 ∧
      resolveParent 999 [(1, 7)] 2 = 999 ∧ resolveParent 999 [(2, 0)] 2 = 999 := by
  refine ⟨?_, ?_, ?_, ?_⟩
  · exact (claim_C5_parent_resolution 999 [(1, 7)] 0).1 rfl
  · exact (claim_C5_parent_resolution 999 [(1, 7)] 1).2.1 7 (by decide) (by decide) (by decide)
  · exact (claim_C5_parent_resolution 999 [(1, 7)] 2).2.2.1 (by decide) (by decide)
  · exact (claim_C5_parent_resolution 999 [(2, 0)] 2).2.2.2 (by decide) (by decide)

/-- Claim C8 counterexample: `sync_projects.py` performs no
configuration check at all: started with nothing configured its
`__main__` still calls `sync_projects_and_tasks()`, which immediately
attempts the Redmine and TimeCamp fetches — so the claim that a run
with missing credentials aborts before any network call is false for
that script. -/
theorem claim_C8_counterexample :
    emptyConfig.timecampToken = none ∧ emptyConfig.redmineApiKey = none ∧
      hasNet (mainOld emptyConfig) = true :=
  ⟨rfl, rfl, by decide⟩

/-- Claim C8 amended: `sync_projects_new.py` does gate on configuration:
whenever the API token or the root task id is unset or blank (Python
truthiness), its run issues no network call at all and prints the
user-facing help message.  (`sync_projects.py` has no such gate — see
the counterexample.) -/
theorem claim_C8_new_script_gates (cfg : Config) (fuel rootId nextId0 : Nat)
    (fails : String → Bool) (tasks : List SourceTask) (entries : List TCEntry)
    (h : truthy cfg.timecampToken = false ∨ truthy cfg.timecampTaskId = false) :
    hasNet (mainNew cfg fuel rootId nextId0 fails tasks entries) = false ∧
      Ev.msg "To run actual sync, set TIMECAMP_API_TOKEN2 and TIMECAMP_TASK_ID in .env file" ∈
        mainNew cfg fuel rootId nextId0 fails tasks entries := by
  have hcond : (truthy cfg.timecampToken && truthy cfg.timecampTaskId) = false := by
    rcases h with h | h <;> simp [h]
  constructor
  · simp [mainNew, previewTrace, hasNet, hcond]
  · simp [mainNew, hcond]

/-- Witness for the amended C8 at the all-unset configuration. -/
theorem claim_C8_witness :
    hasNet (mainNew emptyConfig 3 999 500 noFail demoTasks []) = false ∧
      Ev.msg "To run actual sync, set TIMECAMP_API_TOKEN2 and TIMECAMP_TASK_ID in .env file" ∈
        mainNew emptyConfig 3 999 500 noFail demoTasks [] :=
  claim_C8_new_script_gates emptyConfig 3 999 500 noFail demoTasks [] (Or.inl rfl)

/-- Claim C9: A time entry whose `addons_external_id` is absent, does not
start with `redmine_`, or has an unparseable (non-integer) id suffix is
ignored: `create_time_entry` returns without issuing a Redmine create
and without raising, and the `handle_time_entries` loop processes the
surrounding entries unchanged. -/
theorem claim_C9_malformed_ignored (um : List (Nat × Nat)) (act : String) (d : TimeEntry)
    (before after : List TimeEntry)
    (h : d.addons_external_id = none ∨
      (∃ s, d.addons_external_id = some s ∧ pyStartsWith s "redmine_" = false) ∨
      (∃ s, d.addons_external_id = some s ∧ pyStartsWith s "redmine_" = true ∧
        ∃ msg, extract_id_from_addons_external_id s = .error msg)) :
    create_time_entry um act d = none ∧
      handle_time_entries um act (before ++ d :: after) =
        handle_time_entries um act before ++ none :: handle_time_entries um act after := by
  have hnone : create_time_entry um act d = none := by
    rcases h with h | ⟨s, hs, hsw⟩ | ⟨s, hs, hsw, msg, hx⟩
    · simp [create_time_entry, h]
    · simp [create_time_entry, hs, hsw]
    · simp [create_time_entry, hs, hsw, hx]
  refine ⟨hnone, ?_⟩
  unfold handle_time_entries
  rw [List.map_append, List.map_cons, hnone]

/-- Witness for C9 on the malformed entry `badSuffixEntry`
(`redmine_abc`). -/
theorem claim_C9_witness :
    create_time_entry [(3, 8)] "9" badSuffixEntry = none ∧
      handle_time_entries [(3, 8)] "9" ([] ++ badSuffixEntry :: []) =
        handle_time_entries [(3, 8)] "9" [] ++ none :: handle_time_entries [(3, 8)] "9" [] :=
  claim_C9_malformed_ignored [(3, 8)] "9" badSuffixEntry [] []
    (Or.inr (Or.inr ⟨"redmine_abc", rfl, rfl, "invalid literal for int: abc", rfl⟩))

/-- Claim C10: A destination task created during a pass is never archived
by the same pass: every successfully created entry's external id was
added to the active set before the create, so the archive loop's
condition excludes it; with server-assigned ids fresh with respect to
the fetched entries, no created task id appears among the archive calls.
Holds for every create-failure pattern. -/
theorem claim_C10_created_not_archived (fuel rootId nextId0 : Nat) (fails : String → Bool)
    (tasks : List SourceTask) (entries : List TCEntry)
    (hfresh : ∀ e ∈ entries, e.task_id < nextId0) :
    (∀ c ∈ (syncPass fuel rootId nextId0 fails tasks entries).created,
        ∃ k, c.external_task_id = some k ∧
          k ∈ (syncPass fuel rootId nextId0 fails tasks entries).active) ∧
      ∀ c ∈ (syncPass fuel rootId nextId0 fails tasks entries).created,
        c.task_id ∉ (syncPass fuel rootId nextId0 fails tasks entries).archives := by
  by_cases hne : tasks = []
  · subst hne
    constructor <;> intro c hc <;> exact absurd hc (List.not_mem_nil c)
  · have hpass := syncPass_eq_of_ne_nil fuel rootId nextId0 fails tasks entries hne
    rw [hpass]
    constructor
    · intro c hc
      rcases created_mem_processAll rootId fails ((sortTasks fuel tasks).map Prod.fst)
          ⟨buildTCMap entries, [], [], [], [], nextId0⟩ c hc with h0 | ⟨k, hk1, _, hk3, _, _⟩
      · exact absurd h0 (List.not_mem_nil c)
      · exact ⟨k, hk1, hk3⟩
    · intro c hc hmem
      rcases created_mem_processAll rootId fails ((sortTasks fuel tasks).map Prod.fst)
          ⟨buildTCMap entries, [], [], [], [], nextId0⟩ c hc with h0 | ⟨_, _, _, _, hk4, _⟩
      · exact absurd h0 (List.not_mem_nil c)
      · rcases mem_archivePhase.1 hmem with ⟨p, hp, hna, _, hid⟩
        rcases tcMap_pair_processAll rootId fails ((sortTasks fuel tasks).map Prod.fst)
            ⟨buildTCMap entries, [], [], [], [], nextId0⟩ p hp with horig | hcre
        · have h2 := pair_mem_buildTCMap horig
          have hlt := hfresh p.2 h2.1
          have hk4' : nextId0 ≤ c.task_id := hk4
          omega
        · exact hna hcre.2.2.1

/-- Witness for C10: a pass over `demoTasks` with the existing entry
`staleEntry` (id 9 < 500): both created tasks keep ids 500-501, the sole
archive call targets 9. -/
theorem claim_C10_witness :
    (∀ c ∈ (syncPass 3 999 500 noFail demoTasks [staleEntry]).created,
        ∃ k, c.external_task_id = some k ∧
          k ∈ (syncPass 3 999 500 noFail demoTasks [staleEntry]).active) ∧
      ∀ c ∈ (syncPass 3 999 500 noFail demoTasks [staleEntry]).created,
        c.task_id ∉ (syncPass 3 999 500 noFail demoTasks [staleEntry]).archives :=
  claim_C10_created_not_archived 3 999 500 noFail demoTasks [staleEntry] (by decide)

/-! ## Uniqueness helpers and counting -/

theorem nodup_filterMap_inj {l : List α} {f : α → Option β} (h : (l.filterMap f).Nodup) :
    ∀ {a b : α} {s : β}, a ∈ l → b ∈ l → f a = some s → f b = some s → a = b := by
  induction l with
  | nil => intro a b s ha; cases ha
  | cons x t ih =>
    intro a b s ha hb hfa hfb
    rcases List.mem_cons.1 ha with rfl | ha'
    · rcases List.mem_cons.1 hb with rfl | hb'
      · rfl
      · exfalso
        rw [List.filterMap_cons, hfa, List.nodup_cons] at h
        exact h.1 (List.mem_filterMap.2 ⟨b, hb', hfb⟩)
    · rcases List.mem_cons.1 hb with rfl | hb'
      · exfalso
        rw [List.filterMap_cons, hfb, List.nodup_cons] at h
        exact h.1 (List.mem_filterMap.2 ⟨a, ha', hfa⟩)
      · have ht : (t.filterMap f).Nodup := by
          rw [List.filterMap_cons] at h
          cases hfx : f x
          · rwa [hfx] at h
          · rw [hfx, List.nodup_cons] at h
            exact h.2
        exact ih ht ha' hb' hfa hfb

theorem countP_eq_one_of_unique {l : List α} {pr : α → Bool} {a : α} :
    l.Nodup → a ∈ l → pr a = true → (∀ x ∈ l, pr x = true → x = a) → l.countP pr = 1 := by
  induction l with
  | nil => intro _ ha; cases ha
  | cons x t ih =>
    intro hnd ha hpa huniq
    rw [List.nodup_cons] at hnd
    rcases List.mem_cons.1 ha with rfl | ha'
    · rw [List.countP_cons_of_pos _ _ hpa]
      have hz : t.countP pr = 0 := by
        rw [List.countP_eq_zero]
        intro y hy hpy
        exact hnd.1 (huniq y (List.mem_cons_of_mem _ hy) hpy ▸ hy)
      omega
    · have hxa : x ≠ a := by
        intro hx
        exact hnd.1 (hx ▸ ha')
      have hpx : ¬ pr x = true := fun hx => hxa (huniq x (List.mem_cons_self _ _) hx)
      rw [List.countP_cons_of_neg _ _ hpx]
      exact ih hnd.2 ha' hpa (fun y hy hpy => huniq y (List.mem_cons_of_mem _ hy) hpy)

/-- Claim C4 amended: With a non-empty source set (on an empty one the
code exits before archiving anything) and destination uniqueness (the
spec §6 assumption: external ids unique among prefixed entries, task ids
unique), a destination entry whose tag is not among the active source
external ids receives exactly one archive call if it is not already
archived, and none if it is. -/
theorem claim_C4_archive_exactly_once (fuel rootId nextId0 : Nat) (fails : String → Bool)
    (tasks : List SourceTask) (entries : List TCEntry) (e : TCEntry) (k : String)
    (hne : tasks ≠ [])
    (hU : (entries.filterMap extTag).Nodup)
    (hT : (entries.map (fun x => x.task_id)).Nodup)
    (he : e ∈ entries) (hk : extTag e = some k)
    (hdead : ∀ t ∈ tasks, k ≠ extIdOf t) :
    (e.archived = false →
      (syncPass fuel rootId nextId0 fails tasks entries).archives.count e.task_id = 1) ∧
    (e.archived = true →
      e.task_id ∉ (syncPass fuel rootId nextId0 fails tasks entries).archives) := by
  rw [syncPass_eq_of_ne_nil fuel rootId nextId0 fails tasks entries hne]
  have hbind : (k, e) ∈ buildTCMap entries := by
    have hsome : (List.lookup k (buildTCMap entries)).isSome = true :=
      (lookup_buildTCMap_isSome k entries).2 ⟨e, he, hk⟩
    obtain ⟨e1, he1⟩ := Option.isSome_iff_exists.1 hsome
    have hpair := mem_of_lookup_eq_some he1
    have hF := pair_mem_buildTCMap hpair
    have : e1 = e := nodup_filterMap_inj hU hF.1 he hF.2 hk
    rwa [this] at hpair
  have hmem : (k, e) ∈ (processAll rootId fails
      ⟨buildTCMap entries, [], [], [], [], nextId0⟩
      ((sortTasks fuel tasks).map Prod.fst)).tcMap :=
    tcMap_sub_processAll rootId fails _ _ hbind
  have hkna : k ∉ (processAll rootId fails
      ⟨buildTCMap entries, [], [], [], [], nextId0⟩
      ((sortTasks fuel tasks).map Prod.fst)).active := by
    rw [mem_active_processAll]
    rintro (h0 | ⟨t, ht, rfl⟩)
    · cases h0
    · exact hdead t ((mem_sortTasks_fst fuel tasks t).1 ht) rfl
  have hpnd : (processAll rootId fails ⟨buildTCMap entries, [], [], [], [], nextId0⟩
      ((sortTasks fuel tasks).map Prod.fst)).tcMap.Nodup :=
    List.Nodup.of_map _ (keys_nodup_processAll rootId fails _ _ (keys_nodup_buildTCMap entries))
  have hval : ∀ x ∈ (processAll rootId fails ⟨buildTCMap entries, [], [], [], [], nextId0⟩
        ((sortTasks fuel tasks).map Prod.fst)).tcMap,
      x.2.task_id = e.task_id →
      x.1 ∉ (processAll rootId fails ⟨buildTCMap entries, [], [], [], [], nextId0⟩
        ((sortTasks fuel tasks).map Prod.fst)).active →
      x.2.archived = false → x = (k, e) ∧ e.archived = false := by
    intro x hx hid hna harch
    rcases tcMap_pair_processAll rootId fails _ _ x hx with horig | hcre
    · have hF := pair_mem_buildTCMap horig
      have hxe : x.2 = e := List.inj_on_of_nodup_map hT hF.1 he hid
      have hxk : x.1 = k := by
        have := hF.2
        rw [hxe, hk] at this
        exact (Option.some.inj this).symm
      refine ⟨?_, by rw [← hxe]; exact harch⟩
      obtain ⟨x1, x2⟩ := x
      simp only at hxe hxk
      rw [hxe, hxk]
    · exact absurd hcre.2.2.1 hna
  constructor
  · intro harch
    show (archivePhase _ _).count e.task_id = 1
    unfold archivePhase
    rw [List.count_eq_countP, List.countP_map, List.countP_filter]
    apply countP_eq_one_of_unique hpnd hmem
    · simp [hkna, harch]
    · intro x hx hpx
      simp only [Function.comp_apply, Bool.and_eq_true, beq_iff_eq, decide_eq_true_eq,
        Bool.not_eq_true'] at hpx
      exact (hval x hx hpx.1 hpx.2.1 hpx.2.2).1
  · intro harch hin
    rcases mem_archivePhase.1 hin with ⟨p, hp, hna, hnarch, hid⟩
    have := (hval p hp hid hna hnarch).2
    rw [harch] at this
    cases this

/-- Claim C4 counterexample: As stated the claim is false: with an empty
source set the code returns before archiving anything
(`if not azure_tasks: return` at line 103), so the unarchived stale
entry `staleEntry` — whose tag is trivially not among the (empty) active
source external ids — receives zero archive calls, not exactly one. -/
theorem claim_C4_counterexample :
    staleEntry.archived = false ∧ extTag staleEntry = some "sync_42" ∧
      (∀ t ∈ ([] : List SourceTask), "sync_42" ≠ extIdOf t) ∧
      (syncPass 3 999 500 noFail [] [staleEntry]).archives.count staleEntry.task_id = 0 := by
  refine ⟨rfl, rfl, ?_, rfl⟩
  intro t ht
  cases ht

/-- Witness for the amended C4: `staleEntry`'s tag `sync_42` is dead in
a pass over `demoTasks`, and it receives exactly one archive call. -/
theorem claim_C4_witness :
    (syncPass 3 999 500 noFail demoTasks [staleEntry]).archives.count staleEntry.task_id
      = 1 :=
  (claim_C4_archive_exactly_once 3 999 500 noFail demoTasks [staleEntry] staleEntry "sync_42"
    (by decide) (by decide) (by decide) (by decide) rfl (by decide)).1 rfl

/-- Claim C3 counterexample: As stated the claim is false: the code
never un-archives.  With an already-archived destination entry for the
still-active source node 1 (`archivedEntry`, tag `sync_1`), the pass
leaves it archived, so after the pass no active destination entry
carries `sync_1` although `sync_1` is in the image of the source set. -/
theorem claim_C3_counterexample :
    (∃ t ∈ [(⟨1, "P", 0⟩ : SourceTask)], "sync_1" = extIdOf t) ∧
      ¬ ∃ e ∈ applyPass [archivedEntry]
          (syncPass 3 999 500 noFail [⟨1, "P", 0⟩] [archivedEntry]),
        extTag e = some "sync_1" ∧ e.archived = false := by
  constructor
  · exact ⟨⟨1, "P", 0⟩, by decide, rfl⟩
  · decide

/-- Claim C3 amended: Assuming a non-empty source set, destination
uniqueness (external ids unique among prefixed entries, task ids
unique — the spec §6 assumption), and that no already-archived
destination entry correlates to an active source node (the code never
un-archives), one all-creates-succeed pass makes the set of active
prefixed destination external ids exactly
`{"sync_" ++ id | id a source task id}`. -/
theorem claim_C3_coverage (fuel rootId nextId0 : Nat) (tasks : List SourceTask)
    (entries : List TCEntry) (s : String)
    (hne : tasks ≠ [])
    (hU : (entries.filterMap extTag).Nodup)
    (hT : (entries.map (fun x => x.task_id)).Nodup)
    (hA : ∀ e ∈ entries, e.archived = true → ∀ t ∈ tasks, extTag e ≠ some (extIdOf t)) :
    (∃ e ∈ applyPass entries (syncPass fuel rootId nextId0 noFail tasks entries),
        extTag e = some s ∧ e.archived = false) ↔
      ∃ t ∈ tasks, s = extIdOf t := by
  have hE2 : applyPass entries (syncPass fuel rootId nextId0 noFail tasks entries) =
      entries.map (markArchived (archivePhase
        (processAll rootId noFail ⟨buildTCMap entries, [], [], [], [], nextId0⟩
          ((sortTasks fuel tasks).map Prod.fst)).tcMap
        (processAll rootId noFail ⟨buildTCMap entries, [], [], [], [], nextId0⟩
          ((sortTasks fuel tasks).map Prod.fst)).active)) ++
      (processAll rootId noFail ⟨buildTCMap entries, [], [], [], [], nextId0⟩
        ((sortTasks fuel tasks).map Prod.fst)).created := by
    rw [syncPass_eq_of_ne_nil fuel rootId nextId0 noFail tasks entries hne]
    rfl
  have hactiff : ∀ x : String,
      x ∈ (processAll rootId noFail ⟨buildTCMap entries, [], [], [], [], nextId0⟩
        ((sortTasks fuel tasks).map Prod.fst)).active ↔ ∃ t ∈ tasks, x = extIdOf t := by
    intro x
    rw [mem_active_processAll]
    constructor
    · rintro (h0 | ⟨t, ht, rfl⟩)
      · exact absurd h0 (List.not_mem_nil x)
      · exact ⟨t, (mem_sortTasks_fst fuel tasks t).1 ht, rfl⟩
    · rintro ⟨t, ht, rfl⟩
      exact Or.inr ⟨t, (mem_sortTasks_fst fuel tasks t).2 ht, rfl⟩
  have hS1 : ∀ e0 ∈ entries, ∀ tag : String, extTag e0 = some tag →
      tag ∈ (processAll rootId noFail ⟨buildTCMap entries, [], [], [], [], nextId0⟩
        ((sortTasks fuel tasks).map Prod.fst)).active →
      e0.task_id ∉ archivePhase
        (processAll rootId noFail ⟨buildTCMap entries, [], [], [], [], nextId0⟩
          ((sortTasks fuel tasks).map Prod.fst)).tcMap
        (processAll rootId noFail ⟨buildTCMap entries, [], [], [], [], nextId0⟩
          ((sortTasks fuel tasks).map Prod.fst)).active := by
    intro e0 he0 tag htag hintag hinA
    rcases mem_archivePhase.1 hinA with ⟨p, hp, hna, _, hid⟩
    rcases tcMap_pair_processAll rootId noFail _ _ p hp with horig | hcre
    · have hF := pair_mem_buildTCMap horig
      have hpe : p.2 = e0 := List.inj_on_of_nodup_map hT hF.1 he0 hid
      have hp1 : p.1 = tag := by
        have htag2 := hF.2
        rw [hpe, htag] at htag2
        exact (Option.some.inj htag2).symm
      exact hna (hp1 ▸ hintag)
    · exact hna hcre.2.2.1
  have hS2 : ∀ e0 ∈ entries, ∀ tag : String, extTag e0 = some tag →
      tag ∉ (processAll rootId noFail ⟨buildTCMap entries, [], [], [], [], nextId0⟩
        ((sortTasks fuel tasks).map Prod.fst)).active →
      e0.archived = false →
      e0.task_id ∈ archivePhase
        (processAll rootId noFail ⟨buildTCMap entries, [], [], [], [], nextId0⟩
          ((sortTasks fuel tasks).map Prod.fst)).tcMap
        (processAll rootId noFail ⟨buildTCMap entries, [], [], [], [], nextId0⟩
          ((sortTasks fuel tasks).map Prod.fst)).active := by
    intro e0 he0 tag htag hntag harch
    have hbind : (tag, e0) ∈ buildTCMap entries := by
      have hsome : (List.lookup tag (buildTCMap entries)).isSome = true :=
        (lookup_buildTCMap_isSome tag entries).2 ⟨e0, he0, htag⟩
      obtain ⟨e1, he1⟩ := Option.isSome_iff_exists.1 hsome
      have hpair := mem_of_lookup_eq_some he1
      have hF := pair_mem_buildTCMap hpair
      have he10 : e1 = e0 := nodup_filterMap_inj hU hF.1 he0 hF.2 htag
      rwa [he10] at hpair
    exact mem_archivePhase.2 ⟨(tag, e0), tcMap_sub_processAll rootId noFail _ _ hbind,
      hntag, harch, rfl⟩
  rw [hE2]
  constructor
  · rintro ⟨e, hmem, htag, harch⟩
    rcases List.mem_append.1 hmem with hmap | hcr
    · rcases List.mem_map.1 hmap with ⟨e0, he0, rfl⟩
      have htag0 : extTag e0 = some s := by
        rw [← extTag_markArchived (archivePhase _ _) e0]
        exact htag
      by_contra hns
      have hsna : s ∉ (processAll rootId noFail
          ⟨buildTCMap entries, [], [], [], [], nextId0⟩
          ((sortTasks fuel tasks).map Prod.fst)).active :=
        fun hin => hns ((hactiff s).1 hin)
      cases hb : e0.archived with
      | true =>
        rw [markArchived_archived _ _ hb] at harch
        cases harch
      | false =>
        have hin := hS2 e0 he0 s htag0 hsna hb
        rw [markArchived_of_mem _ _ hin] at harch
        cases harch
    · rcases created_mem_processAll rootId noFail _ _ e hcr with h0 | ⟨k, hk1, _, hk3, _, _⟩
      · exact absurd h0 (List.not_mem_nil e)
      · have hks : k = s := by
          have h2 := (extTag_eq_some htag).1
          rw [hk1] at h2
          exact Option.some.inj h2
        exact (hactiff s).1 (hks ▸ hk3)
  · rintro ⟨t, ht, rfl⟩
    by_cases hin : ∃ e0 ∈ entries, extTag e0 = some (extIdOf t)
    · obtain ⟨e0, he0, htag0⟩ := hin
      have harch0 : e0.archived = false := by
        cases hb : e0.archived with
        | false => rfl
        | true => exact absurd htag0 (hA e0 he0 hb t ht)
      have hnotinA := hS1 e0 he0 (extIdOf t) htag0 ((hactiff _).2 ⟨t, ht, rfl⟩)
      refine ⟨markArchived _ e0, List.mem_append_left _ (List.mem_map_of_mem _ he0), ?_, ?_⟩
      · rw [extTag_markArchived]
        exact htag0
      · rw [markArchived_of_not_mem _ _ hnotinA]
        exact harch0
    · have hsome := lookup_isSome_of_mem_processAll rootId noFail
        ((sortTasks fuel tasks).map Prod.fst)
        ⟨buildTCMap entries, [], [], [], [], nextId0⟩ t
        ((mem_sortTasks_fst fuel tasks t).2 ht) rfl
      obtain ⟨e, he⟩ := Option.isSome_iff_exists.1 hsome
      have hpair := mem_of_lookup_eq_some he
      rcases tcMap_pair_processAll rootId noFail _ _ (extIdOf t, e) hpair with horig | hcre
      · have hF := pair_mem_buildTCMap horig
        exact absurd ⟨e, hF.1, hF.2⟩ hin
      · exact ⟨e, List.mem_append_right _ hcre.2.2.2.2.1,
          extTag_of_fields hcre.1 hcre.2.1, hcre.2.2.2.2.2⟩

/-- Witness for the amended C3: with the stale entry present, after the
pass `sync_1` and `sync_2` are exactly the active prefixed tags and
`sync_42` is not. -/
theorem claim_C3_witness :
    ((∃ e ∈ applyPass [staleEntry] (syncPass 3 999 500 noFail demoTasks [staleEntry]),
        extTag e = some "sync_1" ∧ e.archived = false) ↔
      ∃ t ∈ demoTasks, "sync_1" = extIdOf t) ∧
    ((∃ e ∈ applyPass [staleEntry] (syncPass 3 999 500 noFail demoTasks [staleEntry]),
        extTag e = some "sync_42" ∧ e.archived = false) ↔
      ∃ t ∈ demoTasks, "sync_42" = extIdOf t) := by
  constructor
  · exact claim_C3_coverage 3 999 500 demoTasks [staleEntry] "sync_1" (by decide) (by decide)
      (by decide) (by decide)
  · exact claim_C3_coverage 3 999 500 demoTasks [staleEntry] "sync_42" (by decide) (by decide)
      (by decide) (by decide)
